import Mathlib

set_option maxRecDepth 100000

/-!
Shallow embedding of `src/claude-cost-optimizer/src/caching/smart_cache_demo.py`
(class `SmartCache`), together with theorems settling the frozen claims about
its specification.

Modelling conventions:
* Python strings are Lean `String`s; byte-level operations go through an
  explicit UTF-8 encoder (`utf8Encode`).  Python's `str.lower` is modelled by
  ASCII lowercasing (the repository only handles ASCII model ids and queries).
* `hashlib.md5` is implemented in full (`md5HexOfString`), over `Nat` with
  explicit reduction modulo `2 ^ 32`.
* Redis is modelled as an explicit store (`RedisStore`): string values with an
  absolute expiry timestamp, hash values with an optional expiry, plus a `down`
  flag driving runtime command failures.  Every redis command returns
  `Except Unit _`; the `SmartCache` wrappers catch the error exactly where the
  Python code has `try/except`.  Documented redis semantics that matter here:
  `SETEX` rejects a non-positive expire time (raises), `EXPIRE` with a
  non-positive ttl deletes the key, `GET`/`HGET` on a key of the wrong type
  raise WRONGTYPE, and expired keys are invisible to `GET`/`HGET`/`KEYS`.
* `difflib.SequenceMatcher(None, a, b).ratio()` is implemented exactly
  (Ratcliff/Obershelp, leftmost-longest matching blocks) with the score kept as
  an exact rational; similarity comparisons on Python floats are modelled by
  the corresponding exact rational comparisons.  (For inputs of length ≥ 200
  Python additionally applies the autojunk heuristic; no input in this
  repository reaches that length.)
* Wall-clock time is an explicit `now : Nat` parameter; `datetime.now()`
  timestamps are modelled by that same number.
-/

/-! ### Python string primitives -/

/-- Python `str.lower()` (ASCII range, which is all the repository uses). -/
def pyLower (s : String) : String := ⟨s.data.map Char.toLower⟩

/-- Python's whitespace set for `str.strip()`. -/
def isPySpace (c : Char) : Bool :=
  c == ' ' || c == '\t' || c == '\n' || c == '\r' || c == '\x0b' || c == '\x0c'

/-- Python `str.strip()`: drop leading and trailing whitespace. -/
def pyStrip (s : String) : String :=
  ⟨((s.data.dropWhile isPySpace).reverse.dropWhile isPySpace).reverse⟩

/-- Python `str.replace(c, "")` for a one-character pattern: remove every
occurrence of `c`, scanning left to right. -/
def removeAllChar (c : Char) : List Char → List Char
  | [] => []
  | x :: xs => if x = c then removeAllChar c xs else x :: removeAllChar c xs

/-- Lines 52–54 of `smart_cache_demo.py`:
`normalized = user_message.lower().strip()` followed by
`.replace("?", "").replace(".", "").replace("!", "")`. -/
def normalizeMsg (s : String) : String :=
  ⟨removeAllChar '!' (removeAllChar '.' (removeAllChar '?' (pyStrip (pyLower s)).data))⟩

/-- `String.take` on the underlying character list (used for the 12-character
hash truncation `hexdigest()[:12]`). -/
def takeStr (s : String) (n : Nat) : String := ⟨s.data.take n⟩

/-! ### UTF-8 encoding (Python `str.encode()`) -/

def utf8Char (c : Char) : List Nat :=
  let n := c.toNat
  if n < 128 then [n]
  else if n < 2048 then [192 + n / 64, 128 + n % 64]
  else if n < 65536 then [224 + n / 4096, 128 + (n / 64) % 64, 128 + n % 64]
  else [240 + n / 262144, 128 + (n / 4096) % 64, 128 + (n / 64) % 64, 128 + n % 64]

def utf8Encode (s : String) : List Nat :=
  s.data.foldr (fun c acc => utf8Char c ++ acc) []

/-! ### MD5 (`hashlib.md5(...).hexdigest()`) -/

def M32 : Nat := 4294967296

def add32 (a b : Nat) : Nat := (a + b) % M32

def not32 (a : Nat) : Nat := 4294967295 - a

/-- Rotate a 32-bit word left by `n` (0 < n < 32). -/
def rotl32 (x n : Nat) : Nat := ((x <<< n) % M32) + (x >>> (32 - n))

/-- The 64 MD5 sine constants `K[i] = floor(abs(sin(i+1)) * 2^32)`. -/
def md5K : List Nat :=
  [3614090360, 3905402710, 606105819, 3250441966, 4118548399, 1200080426,
   2821735955, 4249261313, 1770035416, 2336552879, 4294925233, 2304563134,
   1804603682, 4254626195, 2792965006, 1236535329, 4129170786, 3225465664,
   643717713, 3921069994, 3593408605, 38016083, 3634488961, 3889429448,
   568446438, 3275163606, 4107603335, 1163531501, 2850285829, 4243563512,
   1735328473, 2368359562, 4294588738, 2272392833, 1839030562, 4259657740,
   2763975236, 1272893353, 4139469664, 3200236656, 681279174, 3936430074,
   3572445317, 76029189, 3654602809, 3873151461, 530742520, 3299628645,
   4096336452, 1126891415, 2878612391, 4237533241, 1700485571, 2399980690,
   4293915773, 2240044497, 1873313359, 4264355552, 2734768916, 1309151649,
   4149444226, 3174756917, 718787259, 3951481745]

/-- The MD5 per-round left-rotate amounts. -/
def md5S : List Nat :=
  [7, 12, 17, 22, 7, 12, 17, 22, 7, 12, 17, 22, 7, 12, 17, 22,
   5, 9, 14, 20, 5, 9, 14, 20, 5, 9, 14, 20, 5, 9, 14, 20,
   4, 11, 16, 23, 4, 11, 16, 23, 4, 11, 16, 23, 4, 11, 16, 23,
   6, 10, 15, 21, 6, 10, 15, 21, 6, 10, 15, 21, 6, 10, 15, 21]

def md5F (i b c d : Nat) : Nat :=
  if i < 16 then (b &&& c) ||| (not32 b &&& d)
  else if i < 32 then (d &&& b) ||| (not32 d &&& c)
  else if i < 48 then b ^^^ c ^^^ d
  else c ^^^ (b ||| not32 d)

def md5G (i : Nat) : Nat :=
  if i < 16 then i
  else if i < 32 then (5 * i + 1) % 16
  else if i < 48 then (3 * i + 5) % 16
  else (7 * i) % 16

structure MD5St where
  a : Nat
  b : Nat
  c : Nat
  d : Nat

def getIdx (l : List Nat) (i : Nat) : Nat := l.getD i 0

def md5Step (x : List Nat) (st : MD5St) (i : Nat) : MD5St :=
  let f := add32 (add32 (add32 (md5F i st.b st.c st.d) st.a) (getIdx md5K i))
    (getIdx x (md5G i))
  ⟨st.d, add32 st.b (rotl32 f (getIdx md5S i)), st.b, st.c⟩

def md5Block (st : MD5St) (x : List Nat) : MD5St :=
  let e := (List.range 64).foldl (md5Step x) st
  ⟨add32 st.a e.a, add32 st.b e.b, add32 st.c e.c, add32 st.d e.d⟩

/-- Little-endian byte decomposition of `n` into `count` bytes. -/
def leBytes (n count : Nat) : List Nat :=
  (List.range count).map (fun i => (n >>> (8 * i)) % 256)

/-- MD5 padding: append `0x80`, zero-pad to 56 mod 64, append the 64-bit
little-endian bit length. -/
def md5Pad (msg : List Nat) : List Nat :=
  msg ++ [128] ++ List.replicate ((119 - msg.length % 64) % 64) 0
    ++ leBytes (8 * msg.length) 8

/-- Split into 64-byte chunks (fuel-based so that the kernel can evaluate it). -/
def chunk64 : Nat → List Nat → List (List Nat)
  | 0, _ => []
  | _, [] => []
  | fuel + 1, l => l.take 64 :: chunk64 fuel (l.drop 64)

/-- The sixteen 32-bit little-endian words of a 64-byte block. -/
def toWords (block : List Nat) : List Nat :=
  (List.range 16).map (fun i =>
    getIdx block (4 * i) + 256 * getIdx block (4 * i + 1)
      + 65536 * getIdx block (4 * i + 2) + 16777216 * getIdx block (4 * i + 3))

def md5Init : MD5St := ⟨0x67452301, 0xefcdab89, 0x98badcfe, 0x10325476⟩

def md5Digest (msg : List Nat) : List Nat :=
  let padded := md5Pad msg
  let final := (chunk64 padded.length padded).foldl
    (fun st b => md5Block st (toWords b)) md5Init
  leBytes final.a 4 ++ leBytes final.b 4 ++ leBytes final.c 4 ++ leBytes final.d 4

def hexDigitChar (n : Nat) : Char :=
  if n < 10 then Char.ofNat (48 + n) else Char.ofNat (87 + n)

def byteHex (b : Nat) : List Char := [hexDigitChar (b / 16), hexDigitChar (b % 16)]

def md5Hex (msg : List Nat) : String :=
  ⟨(md5Digest msg).foldr (fun b acc => byteHex b ++ acc) []⟩

/-- `hashlib.md5(s.encode()).hexdigest()`. -/
def md5HexOfString (s : String) : String := md5Hex (utf8Encode s)

/-! ### `json.dumps(..., sort_keys=True)` for the shapes the code serializes -/

/-- JSON string escaping as `json.dumps` performs it with the default
`ensure_ascii=True`: the two mandatory escapes, the C-style control escapes,
`\uXXXX` for remaining control characters and for all non-ASCII characters
(astral code points as surrogate pairs). -/
def jsonEscapeChar (c : Char) : List Char :=
  if c = '"' then ['\\', '"']
  else if c = '\\' then ['\\', '\\']
  else if c = '\n' then ['\\', 'n']
  else if c = '\r' then ['\\', 'r']
  else if c = '\t' then ['\\', 't']
  else if c = '\x08' then ['\\', 'b']
  else if c = '\x0c' then ['\\', 'f']
  else if c.toNat < 32 then
    '\\' :: 'u' :: '0' :: '0' :: byteHex c.toNat
  else if c.toNat < 127 then [c]
  else if c.toNat < 65536 then
    '\\' :: 'u' :: (byteHex (c.toNat / 256) ++ byteHex (c.toNat % 256))
  else
    let v := c.toNat - 65536
    let hi := 55296 + v / 1024
    let lo := 56320 + v % 1024
    ('\\' :: 'u' :: (byteHex (hi / 256) ++ byteHex (hi % 256)))
      ++ ('\\' :: 'u' :: (byteHex (lo / 256) ++ byteHex (lo % 256)))

def jsonStr (s : String) : List Char :=
  '"' :: (s.data.foldr (fun c acc => jsonEscapeChar c ++ acc) []) ++ ['"']

/-- Decimal digits of a natural number (own fuel-based implementation so the
kernel evaluates it). -/
def natDecimalAux : Nat → Nat → List Char
  | 0, _ => []
  | fuel + 1, n =>
    if n < 10 then [Char.ofNat (48 + n)]
    else natDecimalAux fuel (n / 10) ++ [Char.ofNat (48 + n % 10)]

def natDecimal (n : Nat) : List Char := natDecimalAux (n + 1) n

/-- One request message: a dict with keys `role` and `content` (the only keys
this repository ever puts in a message). -/
structure Message where
  role : String
  content : String
deriving DecidableEq

/-- `json.dumps` of one message dict with `sort_keys=True`
(`"content"` sorts before `"role"`). -/
def jsonMessage (m : Message) : List Char :=
  ('\x7b' :: jsonStr "content") ++ (':' :: ' ' :: jsonStr m.content)
    ++ (',' :: ' ' :: jsonStr "role") ++ (':' :: ' ' :: jsonStr m.role) ++ ['\x7d']

def jsonMessageList (ms : List Message) : List Char :=
  '[' :: (match ms with
    | [] => []
    | m :: rest => rest.foldl (fun acc m2 => acc ++ ',' :: ' ' :: jsonMessage m2)
        (jsonMessage m)) ++ [']']

def jsonMaxTokens : Option Nat → List Char
  | none => ['n', 'u', 'l', 'l']
  | some n => natDecimal n

/-- Line 46: `json.dumps(cache_content, sort_keys=True)` where `cache_content`
has keys `model`, `messages`, `max_tokens`; sorted key order is
`max_tokens < messages < model`. -/
def cacheContentJson (model_id : String) (messages : List Message)
    (max_tokens : Option Nat) : String :=
  ⟨('\x7b' :: jsonStr "max_tokens") ++ (':' :: ' ' :: jsonMaxTokens max_tokens)
    ++ (',' :: ' ' :: jsonStr "messages") ++ (':' :: ' ' :: jsonMessageList messages)
    ++ (',' :: ' ' :: jsonStr "model") ++ (':' :: ' ' :: jsonStr model_id)
    ++ ['\x7d']⟩

/-! ### `SmartCache._generate_cache_key` / `_generate_semantic_key` -/

/-- Lines 39–47 (`SmartCache._generate_cache_key`). -/
def generate_cache_key (model_id : String) (messages : List Message)
    (max_tokens : Option Nat) : String :=
  "claude_cache:" ++ md5HexOfString (cacheContentJson model_id messages max_tokens)

/-- Lines 49–55 (`SmartCache._generate_semantic_key`).  Note: this method is
never called anywhere in the repository; the semantic index key is built
inline in `_create_semantic_index` (line 153) without any normalization. -/
def generate_semantic_key (user_message : String) : String :=
  "semantic:" ++ takeStr (md5HexOfString (normalizeMsg user_message)) 12

/-! ### Data model -/

/-- The dict built at lines 128–133.  `response` is the opaque response
payload; `timestamp` models `datetime.now().isoformat()` as the numeric clock.
`cache_type` models the `'cache_type'` key, absent (`none`) at creation and
assigned only by `get_cached_response` (lines 70 and 87). -/
structure CacheEntry where
  response : String
  timestamp : Nat
  model_id : String
  ttl : Nat
  cache_type : Option String
deriving DecidableEq

/-- The redis hash written at lines 154–158: fields `message`, `response_key`,
`created` (the latter modelled as the numeric clock). -/
structure SemRecord where
  message : String
  response_key : String
  created : Nat
deriving DecidableEq

/-- Association-list lookup (Python `dict` / redis key lookup). -/
def lookupBy {α : Type} (l : List (String × α)) (k : String) : Option α :=
  (l.find? (fun p => p.1 == k)).map (fun p => p.2)

/-- Association-list insert-or-replace, preserving first-insertion position
(Python `dict.__setitem__` / redis `SET` on an existing key). -/
def upsert {α : Type} (l : List (String × α)) (k : String) (v : α) :
    List (String × α) :=
  match l with
  | [] => [(k, v)]
  | (k2, v2) :: rest =>
    if k2 == k then (k, v) :: rest else (k2, v2) :: upsert rest k v

def removeKey {α : Type} (l : List (String × α)) (k : String) :
    List (String × α) :=
  l.filter (fun p => p.1 != k)

/-- The modelled redis instance.  `strs` holds string values (the JSON-encoded
cache entries, kept structurally since `json.loads ∘ json.dumps` is the
identity on them) with an absolute expiry time; `hashes` holds the semantic
index hashes with an optional absolute expiry (`none` = no TTL set).  `down`
models a runtime backend outage: every command raises. -/
structure RedisStore where
  strs : List (String × CacheEntry × Nat)
  hashes : List (String × SemRecord × Option Nat)
  down : Bool
deriving DecidableEq

def strAlive (now : Nat) (p : CacheEntry × Nat) : Bool := now < p.2

def hashAlive (now : Nat) (p : SemRecord × Option Nat) : Bool :=
  match p.2 with
  | none => true
  | some e => now < e

/-- The live string value at `k`, if any. -/
def aliveStr (r : RedisStore) (now : Nat) (k : String) : Option CacheEntry :=
  match lookupBy r.strs k with
  | none => none
  | some p => if strAlive now p then some p.1 else none

/-- The live hash value at `k`, if any. -/
def aliveHash (r : RedisStore) (now : Nat) (k : String) : Option SemRecord :=
  match lookupBy r.hashes k with
  | none => none
  | some p => if hashAlive now p then some p.1 else none

/-! ### Redis commands

Each command fails (`Except.error`) whenever the backend is `down`, modelling
an arbitrary `redis.exceptions` raise at the call site. -/

/-- `GET key` (string command; WRONGTYPE on a live hash key). -/
def redis_get (r : RedisStore) (now : Nat) (k : String) :
    Except Unit (Option CacheEntry) :=
  if r.down then .error ()
  else if (aliveHash r now k).isSome then .error ()
  else .ok (aliveStr r now k)

/-- `SETEX key ttl value`: rejects a non-positive expire time, otherwise
replaces the value at `key` (of any previous type) with expiry `now + ttl`. -/
def redis_setex (r : RedisStore) (now ttl : Nat) (k : String) (v : CacheEntry) :
    Except Unit RedisStore :=
  if r.down then .error ()
  else if ttl = 0 then .error ()
  else .ok { r with strs := upsert r.strs k (v, now + ttl),
                    hashes := removeKey r.hashes k }

/-- One scan of a `[...]` class body in a redis glob pattern (transcribed
from `stringmatchlen` in redis `util.c`, `nocase = 0`): given the pattern
after the opening bracket (and after an optional `^`), the character under
test and the accumulated match flag, returns the final flag and the rest of
the pattern after the class.  `\x` inside a class matches `x` literally,
`a-b` is a code-point range (bounds swapped when reversed), `]` closes the
class, and an unterminated class silently consumes the rest of the pattern. -/
def globClass : List Char → Char → Bool → Bool × List Char
  | [], _, m => (m, [])
  | '\\' :: d :: rest, c, m => globClass rest c (m || d == c)
  | ']' :: rest, _, m => (m, rest)
  | a :: '-' :: d :: rest, c, m =>
    globClass rest c (m ||
      ((if a ≤ d then a else d) ≤ c && c ≤ (if a ≤ d then d else a)))
  | a :: rest, c, m => globClass rest c (m || a == c)

/-- Leading `*`s of a pattern, as redis skips a run of consecutive stars. -/
def stripStars : List Char → List Char
  | [] => []
  | c :: p => if c = '*' then stripStars p else c :: p

/-- Redis `KEYS` glob matching: a fuel-indexed transcription of
`stringmatchlen` (redis `util.c`, `nocase = 0`), covering `*`, `?`, `[...]`
classes with `^` negation, ranges and `\` escapes, backslash escapes outside
classes, and the quirks of the C loop: a non-empty pattern never matches the
empty string at entry, while trailing `*`s are skipped once the string is
exhausted mid-match.  The `skipLongerMatches` flag of the C code is a pure
pruning optimisation and is omitted.  Every recursive call strictly decreases
`patternLen + stringLen`, so the fuel used by `globMatch` is never
exhausted. -/
def globMatchF : Nat → List Char → List Char → Bool
  | 0, _, _ => false
  | fuel + 1, p, s =>
    match p, s with
    | [], s => s.isEmpty
    | _ :: _, [] => false
    | q :: p2, c :: s2 =>
      if q = '*' then
        if (stripStars p2).isEmpty then true
        else globMatchF fuel (stripStars p2) (c :: s2)
          || globMatchF fuel (q :: p2) s2
      else if q = '?' then
        if s2.isEmpty then (stripStars p2).isEmpty
        else globMatchF fuel p2 s2
      else if q = '[' then
        let scan := match p2 with
          | '^' :: r => globClass r c false
          | _ => globClass p2 c false
        let ok := match p2 with
          | '^' :: _ => !scan.1
          | _ => scan.1
        if ok then
          (if s2.isEmpty then (stripStars scan.2).isEmpty
           else globMatchF fuel scan.2 s2)
        else false
      else if q = '\\' then
        match p2 with
        | d :: p3 =>
          if d == c then
            (if s2.isEmpty then (stripStars p3).isEmpty
             else globMatchF fuel p3 s2)
          else false
        | [] => if q == c then s2.isEmpty else false
      else
        if q == c then
          (if s2.isEmpty then (stripStars p2).isEmpty
           else globMatchF fuel p2 s2)
        else false

def globMatch (p s : String) : Bool :=
  globMatchF (p.data.length + s.data.length + 1) p.data s.data

/-- `KEYS pattern`: every live key (strings first, then hashes — redis order is
unspecified) matching the glob pattern. -/
def redis_keys (r : RedisStore) (now : Nat) (pat : String) :
    Except Unit (List String) :=
  if r.down then .error ()
  else .ok ((((r.strs.filter (fun p => strAlive now p.2)).map (fun p => p.1))
      ++ ((r.hashes.filter (fun p => hashAlive now p.2)).map (fun p => p.1))).filter
    (fun k => globMatch pat k))

/-- `HGET key field` (hash command; WRONGTYPE on a live string key). -/
def redis_hget (r : RedisStore) (now : Nat) (k field : String) :
    Except Unit (Option String) :=
  if r.down then .error ()
  else if (aliveStr r now k).isSome then .error ()
  else .ok (match aliveHash r now k with
    | none => none
    | some sr =>
      if field == "message" then some sr.message
      else if field == "response_key" then some sr.response_key
      else if field == "created" then some ⟨natDecimal sr.created⟩
      else none)

/-- `HSET key mapping={...}`: writes all three fields.  A fresh key starts with
no TTL; an existing live hash keeps its TTL. -/
def redis_hset (r : RedisStore) (now : Nat) (k : String) (sr : SemRecord) :
    Except Unit RedisStore :=
  if r.down then .error ()
  else if (aliveStr r now k).isSome then .error ()
  else .ok { r with hashes :=
    (match lookupBy r.hashes k with
     | some p => if hashAlive now p then upsert r.hashes k (sr, p.2)
                 else upsert r.hashes k (sr, none)
     | none => upsert r.hashes k (sr, none)) }

/-- `EXPIRE key ttl`: with a positive ttl sets the expiry of a live key; with
ttl 0 (non-positive) deletes the key. -/
def redis_expire (r : RedisStore) (now ttl : Nat) (k : String) :
    Except Unit RedisStore :=
  if r.down then .error ()
  else if ttl = 0 then
    .ok { r with strs := removeKey r.strs k, hashes := removeKey r.hashes k }
  else .ok { r with
    strs := (match lookupBy r.strs k with
      | some p => if strAlive now p then upsert r.strs k (p.1, now + ttl)
                  else r.strs
      | none => r.strs),
    hashes := (match lookupBy r.hashes k with
      | some p => if hashAlive now p then upsert r.hashes k (p.1, some (now + ttl))
                  else r.hashes
      | none => r.hashes) }

/-! ### `difflib.SequenceMatcher(None, a, b).ratio()` -/

/-- Length of the common extension of two lists. -/
def commonLen : List Char → List Char → Nat
  | a :: as, b :: bs => if a = b then commonLen as bs + 1 else 0
  | _, _ => 0

/-- `find_longest_match` over full ranges (no junk, inputs < 200 chars so
autojunk never fires): the longest matching block, ties broken by smallest
start in `a`, then smallest start in `b`.  Returns `(i, j, k)`. -/
def longestMatch (a b : List Char) : Nat × Nat × Nat :=
  (List.range (a.length + 1)).foldl (fun acc i =>
    (List.range (b.length + 1)).foldl (fun acc2 j =>
      let k := commonLen (a.drop i) (b.drop j)
      if k > acc2.2.2 then (i, j, k) else acc2) acc) (0, 0, 0)

/-- Total size of all matching blocks (the `sum(size for ... in
get_matching_blocks)` that `ratio()` computes), by divide and conquer around
the longest match. -/
def matchTotal : Nat → List Char → List Char → Nat
  | 0, _, _ => 0
  | fuel + 1, a, b =>
    let m := longestMatch a b
    if m.2.2 = 0 then 0
    else matchTotal fuel (a.take m.1) (b.take m.2.1) + m.2.2
      + matchTotal fuel (a.drop (m.1 + m.2.2)) (b.drop (m.2.1 + m.2.2))

/-- `SequenceMatcher(None, a, b).ratio()`, as an exact rational:
`2 * M / T` with `T = len(a) + len(b)`, and `1.0` when both are empty.
(Stated via `mkRat`, which the kernel can evaluate; `Rat` arithmetic is
`@[irreducible]`.) -/
def ratioOf (sa sb : String) : ℚ :=
  let a := sa.data
  let b := sb.data
  let t := a.length + b.length
  if t = 0 then 1 else mkRat (2 * matchTotal (t + 1) a b) t

/-- The similarity computed at lines 109–110: both sides lowercased first. -/
def scoreQ (user_message cached_message : String) : ℚ :=
  ratioOf (pyLower user_message) (pyLower cached_message)

/-! ### `SmartCache` state and operations -/

/-- The mutable `cache_stats` dict (lines 32–37).  `cost_savings` is only ever
written by the external analyzer, through direct dict access. -/
structure Stats where
  hits : Nat
  misses : Nat
  total_requests : Nat
  cost_savings : ℚ
deriving DecidableEq

/-- One `SmartCache` instance.  `cache_available` is the outcome of the
construction-time `ping` probe; `memory_cache` (the fallback dict) only
matters when `cache_available = false`, exactly as in the Python object. -/
structure SCState where
  cache_available : Bool
  redis : RedisStore
  memory_cache : List (String × CacheEntry)
  cache_stats : Stats
deriving DecidableEq

/-- A freshly constructed `SmartCache` whose probe yielded `avail`
(lines 16–37). -/
def mkSmartCache (avail : Bool) : SCState :=
  ⟨avail, ⟨[], [], false⟩, [], ⟨0, 0, 0, 0⟩⟩

/-- Lines 163–172 (`SmartCache._get_from_cache`): redis `GET` with the
exception swallowed into `None`; on the fallback backend a plain dict lookup
(note: no TTL filtering at all on that path). -/
def get_from_cache (s : SCState) (now : Nat) (k : String) : Option CacheEntry :=
  if s.cache_available then
    match redis_get s.redis now k with
    | .error _ => none
    | .ok v => v
  else
    lookupBy s.memory_cache k

/-- Lines 174–182 (`SmartCache._store_in_cache`): redis `SETEX` with the
exception swallowed (silent no-op); on the fallback backend a plain dict write
that ignores `ttl` entirely. -/
def store_in_cache (s : SCState) (now : Nat) (k : String) (v : CacheEntry)
    (ttl : Nat) : SCState :=
  if s.cache_available then
    match redis_setex s.redis now ttl k v with
    | .error _ => s
    | .ok r2 => { s with redis := r2 }
  else
    { s with memory_cache := upsert s.memory_cache k v }

/-- Lines 147–161 (`SmartCache._create_semantic_index`).  The index key hashes
the *raw* `user_message` (line 153); any redis exception is swallowed, and an
exception in `expire` leaves the already-performed `hset` in place. -/
def create_semantic_index (s : SCState) (now : Nat)
    (model_id user_message response_key : String) (ttl : Nat) : SCState :=
  if s.cache_available = false then s
  else
    let semantic_key :=
      "semantic_index:" ++ model_id ++ ":" ++ takeStr (md5HexOfString user_message) 12
    match redis_hset s.redis now semantic_key ⟨user_message, response_key, now⟩ with
    | .error _ => s
    | .ok r1 =>
      match redis_expire r1 now ttl semantic_key with
      | .error _ => { s with redis := r1 }
      | .ok r2 => { s with redis := r2 }

/-- The scan of lines 106–115, threading the `best_similarity` / `best_match`
accumulator pair; any redis exception aborts the whole scan (the surrounding
`try`).  Note the truthiness tests: an empty `message` or `response_key`
field behaves like an absent one. -/
def simLoop (s : SCState) (now : Nat) (user_message : String) (threshold : ℚ) :
    List String → ℚ × Option CacheEntry → Except Unit (ℚ × Option CacheEntry)
  | [], acc => .ok acc
  | k :: ks, acc => do
    let msgOpt ← redis_hget s.redis now k "message"
    match msgOpt with
    | none => simLoop s now user_message threshold ks acc
    | some cached_message =>
      if cached_message = "" then simLoop s now user_message threshold ks acc
      else
        let similarity := scoreQ user_message cached_message
        if acc.1 < similarity ∧ threshold ≤ similarity then do
          let rkOpt ← redis_hget s.redis now k "response_key"
          match rkOpt with
          | none => simLoop s now user_message threshold ks (similarity, acc.2)
          | some response_key =>
            if response_key = "" then
              simLoop s now user_message threshold ks (similarity, acc.2)
            else
              simLoop s now user_message threshold ks
                (similarity, get_from_cache s now response_key)
        else simLoop s now user_message threshold ks acc

/-- Lines 93–119 (`SmartCache._find_similar_cached_response`). -/
def find_similar_cached_response (s : SCState) (now : Nat)
    (user_message model_id : String) (threshold : ℚ) : Option CacheEntry :=
  if s.cache_available = false then none
  else
    match (do
      let keys ← redis_keys s.redis now ("semantic_index:" ++ model_id ++ ":*")
      simLoop s now user_message threshold (keys.take 20) (0, none)) with
    | .error _ => none
    | .ok acc => acc.2

/-- The loop at lines 76–79 and 139–142: the content of the last message with
role `"user"`, if any. -/
def lastUserMessage (messages : List Message) : Option String :=
  (messages.reverse.find? (fun m => m.role == "user")).map (fun m => m.content)

/-- Lines 57–91 (`SmartCache.get_cached_response`): the returned value (if
any) and the state afterwards.  The Python code mutates the dict it returns
(`cached['cache_type'] = ...`); on the fallback backend that dict *is* the one
stored in `memory_cache`, so the store sees the new field too — the redis
path mutates only the fresh `json.loads` copy. -/
def get_cached_response (s : SCState) (now : Nat) (model_id : String)
    (messages : List Message) (max_tokens : Option Nat)
    (similarity_threshold : ℚ) : Option CacheEntry × SCState :=
  let s1 := { s with cache_stats :=
    { s.cache_stats with total_requests := s.cache_stats.total_requests + 1 } }
  let exact_key := generate_cache_key model_id messages max_tokens
  match get_from_cache s1 now exact_key with
  | some cached =>
    let tagged := { cached with cache_type := some "exact_match" }
    let s2 := if s1.cache_available then s1
      else { s1 with memory_cache := upsert s1.memory_cache exact_key tagged }
    (some tagged, { s2 with cache_stats :=
      { s2.cache_stats with hits := s2.cache_stats.hits + 1 } })
  | none =>
    match lastUserMessage messages with
    | some user_message =>
      if user_message = "" then
        (none, { s1 with cache_stats :=
          { s1.cache_stats with misses := s1.cache_stats.misses + 1 } })
      else
        match find_similar_cached_response s1 now user_message model_id
            similarity_threshold with
        | some similar =>
          (some { similar with cache_type := some "semantic_match" },
           { s1 with cache_stats :=
             { s1.cache_stats with hits := s1.cache_stats.hits + 1 } })
        | none =>
          (none, { s1 with cache_stats :=
            { s1.cache_stats with misses := s1.cache_stats.misses + 1 } })
    | none =>
      (none, { s1 with cache_stats :=
        { s1.cache_stats with misses := s1.cache_stats.misses + 1 } })

/-- Lines 121–145 (`SmartCache.cache_response`). -/
def cache_response (s : SCState) (now : Nat) (model_id : String)
    (messages : List Message) (response : String) (max_tokens : Option Nat)
    (ttl : Nat) : SCState :=
  let cache_key := generate_cache_key model_id messages max_tokens
  let cache_entry : CacheEntry := ⟨response, now, model_id, ttl, none⟩
  let s1 := store_in_cache s now cache_key cache_entry ttl
  match lastUserMessage messages with
  | some user_message =>
    if user_message = "" then s1
    else create_semantic_index s1 now model_id user_message cache_key ttl
  | none => s1

/-- Round `num / den` (with `den > 0`) to the nearest integer, ties to even —
CPython's `round`. -/
def roundHalfEvenNat (num den : Nat) : Nat :=
  let q := num / den
  let r := num % den
  if 2 * r < den then q
  else if den < 2 * r then q + 1
  else if q % 2 = 0 then q else q + 1

/-- `round(q, k)` for a nonnegative rational, ties to even. -/
def roundQ (k : Nat) (q : ℚ) : ℚ :=
  mkRat (roundHalfEvenNat (q.num.toNat * 10 ^ k) q.den) (10 ^ k)

/-- The snapshot dict returned by `get_cache_stats` (lines 184–196). -/
structure StatsSnapshot where
  total_requests : Nat
  cache_hits : Nat
  cache_misses : Nat
  hit_rate_percentage : ℚ
  estimated_cost_savings : ℚ
  cache_backend : String
deriving DecidableEq

/-- Lines 184–196 (`SmartCache.get_cache_stats`): pure read of the counters
(float rounding modelled as exact half-even rounding of the rational). -/
def get_cache_stats (s : SCState) : StatsSnapshot :=
  let total := s.cache_stats.total_requests
  ⟨total, s.cache_stats.hits, s.cache_stats.misses,
   if 0 < total then mkRat (roundHalfEvenNat (1000 * s.cache_stats.hits) total) 10
   else 0,
   roundQ 4 s.cache_stats.cost_savings,
   if s.cache_available then "redis" else "memory"⟩

/-! ### Spec-side definitions and claim-support definitions -/

/-- `beginsWith pre l`: `l` starts with `pre` (plain structural definition,
used to reason about glob patterns of the form `literal ++ "*"`). -/
def beginsWith : List Char → List Char → Bool
  | [], _ => true
  | _ :: _, [] => false
  | a :: as, b :: bs => a == b && beginsWith as bs

/-- A model id free of `:` and of all redis glob metacharacters (`*`, `?`,
`[`, `\`) — the condition under which the `semantic_index:<modelId>:*`
namespace scheme actually separates models.  (`]`, `^` and `-` are literal
outside a `[...]` class, so they need not be excluded.) -/
def cleanId (m : String) : Bool :=
  m.data.all (fun c => !(c == ':') && !(c == '*') && !(c == '?')
    && !(c == '[') && !(c == '\\'))

/-- The semantic index key actually written by `_create_semantic_index`
(line 153): model-namespaced 12-hex-character prefix of the md5 of the *raw*
user message. -/
def semanticIndexKey (model_id original : String) : String :=
  "semantic_index:" ++ model_id ++ ":" ++ takeStr (md5HexOfString original) 12

/-- From the spec (§4.5/§6): the semantic index key as the spec describes it,
with the digest computed over the NORMALIZED text:
`semantic_index:<modelId>:<hex-digest-prefix-12-chars>` of
`normalize(originalText)`.  Used only to compare against the code's key. -/
def specSemanticIndexKey (model_id original : String) : String :=
  "semantic_index:" ++ model_id ++ ":"
    ++ takeStr (md5HexOfString (normalizeMsg original)) 12

/-- From the spec (§4.2): `normalize` "lowercases, trims, strips a fixed set
of terminal punctuation characters (`?`, `.`, `!`)" — i.e. punctuation is
removed only at the end of the string.  Used only to compare against the
code's normalization. -/
def specNormalize (s : String) : String :=
  ⟨((pyStrip (pyLower s)).data.reverse.dropWhile
      (fun c => c == '?' || c == '.' || c == '!')).reverse⟩

/-- The semantic keys a `_find_similar_cached_response` call for `model_id`
scans: the (up to 20) live keys matching `semantic_index:<model_id>:*`. -/
def semanticScanKeys (r : RedisStore) (now : Nat) (model_id : String) :
    List String :=
  match redis_keys r now ("semantic_index:" ++ model_id ++ ":*") with
  | .error _ => []
  | .ok ks => ks.take 20

/-- The records behind the scanned keys. -/
def semanticScanRecords (r : RedisStore) (now : Nat) (model_id : String) :
    List SemRecord :=
  (semanticScanKeys r now model_id).filterMap (fun k => aliveHash r now k)

/-- Well-formedness of the scanned slice of the store, as every state reachable
through `cache_response` satisfies: each scanned key is hash-typed and its
record has a non-empty `message` and `response_key`. -/
def scanWF (r : RedisStore) (now : Nat) (model_id : String) : Bool :=
  (semanticScanKeys r now model_id).all (fun k =>
    (aliveStr r now k).isNone &&
    (match aliveHash r now k with
     | some sr => !(sr.message == "") && !(sr.response_key == "")
     | none => false))

/-- From the spec (§4.5 `findBestMatch`): among the scanned records, the
candidate whose score against the query is greatest, ties broken by
first-encountered scan order, provided that score reaches the threshold:
the first record whose score is `≥ threshold` and `≥` every scanned score. -/
def specSelectBest (q : String) (thr : ℚ) (srs : List SemRecord) :
    Option SemRecord :=
  srs.find? (fun sr => decide (thr ≤ scoreQ q sr.message)
    && srs.all (fun sr2 => decide (scoreQ q sr2.message ≤ scoreQ q sr.message)))

/-- The pure content of the scan loop once redis errors and the truthiness
guards are discharged: fold the running `(best_similarity, best_match)` pair
over the candidate records. -/
def pureFold (s : SCState) (now : Nat) (q : String) (thr : ℚ) :
    List SemRecord → ℚ × Option CacheEntry → ℚ × Option CacheEntry
  | [], acc => acc
  | sr :: srs, acc =>
    let sim := scoreQ q sr.message
    if acc.1 < sim ∧ thr ≤ sim then
      pureFold s now q thr srs (sim, get_from_cache s now sr.response_key)
    else pureFold s now q thr srs acc

/-- One public operation on a `SmartCache` instance. -/
inductive CacheOp where
  | get (now : Nat) (model_id : String) (messages : List Message)
      (max_tokens : Option Nat) (thr : ℚ)
  | put (now : Nat) (model_id : String) (messages : List Message)
      (response : String) (max_tokens : Option Nat) (ttl : Nat)
  | stats

/-- State transition of one operation (`get_cache_stats` is a pure read). -/
def applyOp (s : SCState) : CacheOp → SCState
  | .get now m msgs mt thr => (get_cached_response s now m msgs mt thr).2
  | .put now m msgs resp mt ttl => cache_response s now m msgs resp mt ttl
  | .stats => s

def runOps (s : SCState) : List CacheOp → SCState
  | [] => s
  | op :: ops => runOps (applyOp s op) ops

/-- All semantic records in the store belong to model `m` and are keyed the way
`_create_semantic_index` keys them (true in every reachable state whose puts
all used model `m`). -/
def allForModel (r : RedisStore) (m : String) : Bool :=
  r.hashes.all (fun p => p.1 == semanticIndexKey m p.2.1.message)

/-- All string keys in the store carry the `claude_cache:` namespace tag (true
in every reachable state). -/
def strsWellKeyed (r : RedisStore) : Bool :=
  r.strs.all (fun p => beginsWith ("claude_cache:").data p.1.data)

/-! ### Sanity checks of the primitive embeddings against CPython -/

/-- Sanity check of the MD5 implementation against a published test vector. -/
theorem md5Hex_empty : md5HexOfString "" = "d41d8cd98f00b204e9800998ecf8427e" := by
  decide

/-- Second sanity check of the MD5 implementation. -/
theorem md5Hex_abc : md5HexOfString "abc" = "900150983cd24fb0d6963f7d28e17f72" := by
  decide

/-- Sanity check of the serializer against CPython's
`json.dumps({'model': 'm', 'messages': [{'role': 'user', 'content': 'hi'}],
'max_tokens': None}, sort_keys=True)` and its md5. -/
theorem cacheContentJson_example :
    md5HexOfString (cacheContentJson "m" [⟨"user", "hi"⟩] none)
      = "d898f8f3d1d6614ebd48afda5ec5aea1" := by
  decide

/-- Sanity check against CPython: `SequenceMatcher(None, 'abc', 'axc').ratio()
== 2/3` and identical strings score 1. -/
theorem ratioOf_examples :
    ratioOf "abc" "axc" = mkRat 2 3 ∧ ratioOf "hello" "hello" = 1 := by
  constructor <;> decide

/-! ### Association-list and key-shape lemmas -/

theorem lookupBy_cons {α : Type} (k2 k : String) (v2 : α)
    (t : List (String × α)) :
    lookupBy ((k2, v2) :: t) k = if k2 = k then some v2 else lookupBy t k := by
  by_cases h : k2 = k
  · subst h
    simp [lookupBy, List.find?_cons_of_pos]
  · rw [if_neg h]
    unfold lookupBy
    rw [List.find?_cons_of_neg]
    simp [h]

theorem upsert_cons {α : Type} (k2 k : String) (v2 v : α)
    (t : List (String × α)) :
    upsert ((k2, v2) :: t) k v
      = if k2 = k then (k, v) :: t else (k2, v2) :: upsert t k v := by
  by_cases h : k2 = k <;> simp [upsert, h]

theorem removeKey_cons {α : Type} (k2 k : String) (v2 : α)
    (t : List (String × α)) :
    removeKey ((k2, v2) :: t) k
      = if k2 = k then removeKey t k else (k2, v2) :: removeKey t k := by
  by_cases h : k2 = k <;> simp [removeKey, List.filter_cons, h]

theorem lookupBy_upsert_self {α : Type} (l : List (String × α)) (k : String)
    (v : α) : lookupBy (upsert l k v) k = some v := by
  induction l with
  | nil => simp [upsert, lookupBy, List.find?_cons_of_pos]
  | cons hd t ih =>
    obtain ⟨k2, v2⟩ := hd
    rw [upsert_cons]
    by_cases h : k2 = k
    · simp [h, lookupBy_cons]
    · rw [if_neg h, lookupBy_cons, if_neg h]
      exact ih

theorem lookupBy_upsert_ne {α : Type} (l : List (String × α)) (k k2 : String)
    (v : α) (h : k2 ≠ k) : lookupBy (upsert l k v) k2 = lookupBy l k2 := by
  induction l with
  | nil => simp [upsert, lookupBy_cons, Ne.symm h, lookupBy]
  | cons hd t ih =>
    obtain ⟨k3, v3⟩ := hd
    rw [upsert_cons]
    by_cases hk : k3 = k
    · subst hk
      rw [if_pos rfl, lookupBy_cons, lookupBy_cons, if_neg (Ne.symm h),
        if_neg (Ne.symm h)]
    · rw [if_neg hk, lookupBy_cons, lookupBy_cons]
      by_cases hk2 : k3 = k2
      · simp [hk2]
      · rw [if_neg hk2, if_neg hk2]
        exact ih

theorem lookupBy_removeKey_self {α : Type} (l : List (String × α))
    (k : String) : lookupBy (removeKey l k) k = none := by
  induction l with
  | nil => simp [removeKey, lookupBy]
  | cons hd t ih =>
    obtain ⟨k2, v2⟩ := hd
    rw [removeKey_cons]
    by_cases h : k2 = k
    · simpa [h] using ih
    · rw [if_neg h, lookupBy_cons, if_neg h]
      exact ih

theorem lookupBy_removeKey_ne {α : Type} (l : List (String × α))
    (k k2 : String) (h : k2 ≠ k) :
    lookupBy (removeKey l k) k2 = lookupBy l k2 := by
  induction l with
  | nil => simp [removeKey, lookupBy]
  | cons hd t ih =>
    obtain ⟨k3, v3⟩ := hd
    rw [removeKey_cons, lookupBy_cons]
    by_cases hk : k3 = k
    · subst hk
      rw [if_pos rfl, if_neg (Ne.symm h)]
      exact ih
    · rw [if_neg hk, lookupBy_cons]
      by_cases hk2 : k3 = k2
      · simp [hk2]
      · rw [if_neg hk2, if_neg hk2]
        exact ih

theorem head_of_append (p s : String) (c : Char) (h : p.data.head? = some c) :
    (p ++ s).data.head? = some c := by
  obtain ⟨pdata⟩ := p
  obtain ⟨sdata⟩ := s
  cases pdata with
  | nil => simp at h
  | cons a t =>
    simp only [List.head?_cons, Option.some.injEq] at h
    subst h
    rfl

/-- An exact-entry key (namespace `claude_cache:`) is never a semantic-index
key (namespace `semantic_index:`). -/
theorem cache_key_ne_semantic_key (x m t : String) :
    "claude_cache:" ++ x ≠ "semantic_index:" ++ m ++ ":" ++ t := by
  intro h
  have h1 : ("claude_cache:" ++ x).data.head? = some 'c' :=
    head_of_append _ _ _ (by decide)
  have h2 : ("semantic_index:" ++ m ++ ":" ++ t).data.head? = some 's' :=
    head_of_append _ _ _ (head_of_append _ _ _ (head_of_append _ _ _ (by decide)))
  rw [h] at h1
  exact absurd (h1.symm.trans h2) (by decide)

/-! ### Preservation lemmas for the redis commands -/

theorem redis_hset_ok_preserves (r r1 : RedisStore) (now : Nat) (k : String)
    (sr : SemRecord) (h : redis_hset r now k sr = .ok r1) :
    r1.strs = r.strs ∧ r1.down = r.down ∧
    ∀ k2, k2 ≠ k → lookupBy r1.hashes k2 = lookupBy r.hashes k2 := by
  unfold redis_hset at h
  split at h
  · simp at h
  · split at h
    · simp at h
    · injection h with h
      subst h
      refine ⟨rfl, rfl, fun k2 hk2 => ?_⟩
      dsimp only
      split
      · split <;> exact lookupBy_upsert_ne _ _ _ _ hk2
      · exact lookupBy_upsert_ne _ _ _ _ hk2

theorem redis_expire_ok_preserves (r r1 : RedisStore) (now ttl : Nat)
    (k : String) (h : redis_expire r now ttl k = .ok r1) :
    r1.down = r.down ∧
    (∀ k2, k2 ≠ k → lookupBy r1.strs k2 = lookupBy r.strs k2) ∧
    (∀ k2, k2 ≠ k → lookupBy r1.hashes k2 = lookupBy r.hashes k2) := by
  unfold redis_expire at h
  split at h
  · simp at h
  · split at h
    · injection h with h
      subst h
      exact ⟨rfl, fun k2 hk2 => lookupBy_removeKey_ne _ _ _ hk2,
        fun k2 hk2 => lookupBy_removeKey_ne _ _ _ hk2⟩
    · injection h with h
      subst h
      refine ⟨rfl, fun k2 hk2 => ?_, fun k2 hk2 => ?_⟩
      · dsimp only
        split
        · split
          · exact lookupBy_upsert_ne _ _ _ _ hk2
          · rfl
        · rfl
      · dsimp only
        split
        · split
          · exact lookupBy_upsert_ne _ _ _ _ hk2
          · rfl
        · rfl

/-- `_create_semantic_index` touches nothing outside the redis hash entry at
its own semantic key. -/
theorem create_semantic_index_preserves (s : SCState) (now : Nat)
    (mid um ck : String) (ttl : Nat) (k2 : String)
    (hk2 : k2 ≠ "semantic_index:" ++ mid ++ ":" ++ takeStr (md5HexOfString um) 12) :
    (create_semantic_index s now mid um ck ttl).cache_available
        = s.cache_available ∧
    (create_semantic_index s now mid um ck ttl).memory_cache = s.memory_cache ∧
    (create_semantic_index s now mid um ck ttl).cache_stats = s.cache_stats ∧
    (create_semantic_index s now mid um ck ttl).redis.down = s.redis.down ∧
    lookupBy (create_semantic_index s now mid um ck ttl).redis.strs k2
        = lookupBy s.redis.strs k2 ∧
    lookupBy (create_semantic_index s now mid um ck ttl).redis.hashes k2
        = lookupBy s.redis.hashes k2 := by
  simp only [create_semantic_index]
  split
  · exact ⟨rfl, rfl, rfl, rfl, rfl, rfl⟩
  · split
    · exact ⟨rfl, rfl, rfl, rfl, rfl, rfl⟩
    · next r1 h1 =>
      obtain ⟨hstrs1, hdown1, hhash1⟩ :=
        redis_hset_ok_preserves _ _ _ _ _ h1
      split
      · exact ⟨rfl, rfl, rfl, hdown1, by rw [hstrs1], hhash1 k2 hk2⟩
      · next r2 h2 =>
        obtain ⟨hdown2, hstrs2, hhash2⟩ :=
          redis_expire_ok_preserves _ _ _ _ _ h2
        exact ⟨rfl, rfl, rfl, by rw [hdown2, hdown1],
          by rw [hstrs2 k2 hk2, hstrs1],
          by rw [hhash2 k2 hk2, hhash1 k2 hk2]⟩

/-- Setting the stats field does not affect reads from the backing stores. -/
theorem get_from_cache_set_stats (s : SCState) (st : Stats) (now : Nat)
    (k : String) :
    get_from_cache { s with cache_stats := st } now k = get_from_cache s now k :=
  rfl

/-- On an exact-fingerprint hit, `get_cached_response` returns the stored
entry tagged `exact_match`. -/
theorem get_cached_response_fst_of_hit (s : SCState) (now : Nat) (m : String)
    (msgs : List Message) (mt : Option Nat) (thr : ℚ) (e : CacheEntry)
    (h : get_from_cache s now (generate_cache_key m msgs mt) = some e) :
    (get_cached_response s now m msgs mt thr).1
      = some { e with cache_type := some "exact_match" } := by
  simp only [get_cached_response]
  rw [get_from_cache_set_stats, h]

theorem create_semantic_index_unavail (s : SCState) (now : Nat)
    (mid um ck : String) (ttl : Nat) (h : s.cache_available = false) :
    create_semantic_index s now mid um ck ttl = s := by
  simp [create_semantic_index, h]

theorem get_from_cache_of_alive (s : SCState) (now : Nat) (k : String)
    (e : CacheEntry) (exp : Nat) (hav : s.cache_available = true)
    (hd : s.redis.down = false) (hh : lookupBy s.redis.hashes k = none)
    (hs : lookupBy s.redis.strs k = some (e, exp)) (hexp : now < exp) :
    get_from_cache s now k = some e := by
  simp [get_from_cache, hav, redis_get, hd, aliveHash, hh, aliveStr, hs,
    strAlive, hexp]

/-- After a `cache_response` on a live networked backend, the exact entry is
readable back under its fingerprint. -/
theorem get_from_cache_after_put_redis (s : SCState) (now : Nat) (m : String)
    (msgs : List Message) (resp : String) (mt : Option Nat) (ttl : Nat)
    (hav : s.cache_available = true) (hd : s.redis.down = false)
    (ht : ttl ≠ 0) :
    get_from_cache (cache_response s now m msgs resp mt ttl) now
      (generate_cache_key m msgs mt) = some ⟨resp, now, m, ttl, none⟩ := by
  have hkey : ∀ t : String,
      generate_cache_key m msgs mt ≠ "semantic_index:" ++ m ++ ":" ++ t :=
    fun t => cache_key_ne_semantic_key _ m t
  have hstore : store_in_cache s now (generate_cache_key m msgs mt)
      ⟨resp, now, m, ttl, none⟩ ttl
      = { s with redis := { s.redis with
          strs := upsert s.redis.strs (generate_cache_key m msgs mt)
            (⟨resp, now, m, ttl, none⟩, now + ttl),
          hashes := removeKey s.redis.hashes (generate_cache_key m msgs mt) } } := by
    simp [store_in_cache, hav, redis_setex, hd, ht]
  have hget1 : get_from_cache ({ s with redis := { s.redis with
      strs := upsert s.redis.strs (generate_cache_key m msgs mt)
        (⟨resp, now, m, ttl, none⟩, now + ttl),
      hashes := removeKey s.redis.hashes (generate_cache_key m msgs mt) } })
      now (generate_cache_key m msgs mt) = some ⟨resp, now, m, ttl, none⟩ := by
    refine get_from_cache_of_alive _ _ _ _ (now + ttl) hav hd ?_ ?_ (by omega)
    · exact lookupBy_removeKey_self _ _
    · exact lookupBy_upsert_self _ _ _
  simp only [cache_response]
  rw [hstore]
  split
  · next um heq =>
    split
    · exact hget1
    · obtain ⟨hA, hM, hS, hD, hstr, hhash⟩ :=
        create_semantic_index_preserves _ now m um
          (generate_cache_key m msgs mt) ttl
          (generate_cache_key m msgs mt) (hkey _)
      refine get_from_cache_of_alive _ _ _ _ (now + ttl) (by rw [hA]; exact hav)
        (by rw [hD]; exact hd) ?_ ?_ (by omega)
      · rw [hhash]
        exact lookupBy_removeKey_self _ _
      · rw [hstr]
        exact lookupBy_upsert_self _ _ _
  · exact hget1

/-- C1: for every `(modelId, messages, maxTokens)` triple and response `R`,
`cache_response` with that triple and `R` followed by `get_cached_response`
with the identical triple returns a result whose `response` is `R`, tagged
`exact_match` — on the fallback backend unconditionally, on the networked
backend whenever the backend is up and the ttl is positive. -/
theorem C1_put_then_get_exact (s : SCState) (now : Nat) (m : String)
    (msgs : List Message) (resp : String) (mt : Option Nat) (ttl : Nat)
    (thr : ℚ)
    (hdown : s.cache_available = true → s.redis.down = false)
    (httl : s.cache_available = true → ttl ≠ 0) :
    (get_cached_response (cache_response s now m msgs resp mt ttl) now m msgs
        mt thr).1
      = some ⟨resp, now, m, ttl, some "exact_match"⟩ := by
  cases hav : s.cache_available with
  | true =>
    exact get_cached_response_fst_of_hit _ _ _ _ _ _ _
      (get_from_cache_after_put_redis s now m msgs resp mt ttl hav
        (hdown hav) (httl hav))
  | false =>
    have hcr : cache_response s now m msgs resp mt ttl
        = { s with memory_cache :=
            (upsert s.memory_cache (generate_cache_key m msgs mt)
              ⟨resp, now, m, ttl, none⟩) } := by
      simp only [cache_response, store_in_cache, hav, Bool.false_eq_true,
        if_false]
      split
      · next um heq =>
        split
        · rfl
        · rw [create_semantic_index_unavail]
          rfl
      · rfl
    rw [hcr]
    refine get_cached_response_fst_of_hit _ _ _ _ _ _ ⟨resp, now, m, ttl, none⟩ ?_
    simp [get_from_cache, hav, lookupBy_upsert_self]

/-- Witness for C1 at a concrete instance (networked backend, default ttl). -/
theorem C1_witness :
    (get_cached_response
        (cache_response (mkSmartCache true) 0 "m" [⟨"user", "hi"⟩] "R" none 3600)
        0 "m" [⟨"user", "hi"⟩] none (mkRat 17 20)).1
      = some ⟨"R", 0, "m", 3600, some "exact_match"⟩ :=
  C1_put_then_get_exact (mkSmartCache true) 0 "m" [⟨"user", "hi"⟩] "R" none
    3600 (mkRat 17 20) (fun _ => rfl) (fun _ => by decide)

/-! ### C7: the normalizer -/

theorem removeAllChar_eq_filter (c : Char) (l : List Char) :
    removeAllChar c l = l.filter (fun x => !(x == c)) := by
  induction l with
  | nil => rfl
  | cons x xs ih =>
    by_cases h : x = c <;> simp [removeAllChar, List.filter_cons, h, ih]

/-- C7 (corrected): `normalize` lowercases and trims, but then removes *every*
occurrence of `?`, `.`, `!` — interior occurrences included — i.e. the three
sequential `str.replace` calls amount to one character filter. -/
theorem C7_normalize_removes_all_occurrences (t : String) :
    normalizeMsg t = ⟨(pyStrip (pyLower t)).data.filter
      (fun c => !(c == '?') && !(c == '.') && !(c == '!'))⟩ := by
  unfold normalizeMsg
  rw [removeAllChar_eq_filter, removeAllChar_eq_filter, removeAllChar_eq_filter,
    List.filter_filter, List.filter_filter]
  congr 1
  apply List.filter_congr
  intro c _
  cases h1 : c == '?' <;> cases h2 : c == '.' <;> cases h3 : c == '!' <;>
    simp [h1, h2, h3]

/-- C7 counterexample: the claim says interior punctuation is preserved
(`normalize("a.b") = "a.b"` under the spec reading), but the code removes the
interior `.` as well. -/
theorem C7_counterexample :
    normalizeMsg "a.b" = "ab" ∧ specNormalize "a.b" = "a.b"
      ∧ normalizeMsg "a.b" ≠ specNormalize "a.b" :=
  ⟨by decide, by decide, by decide⟩

/-! ### C2: the semantic index key -/

/-- `_store_in_cache` on a live networked backend with a positive ttl. -/
theorem store_in_cache_redis (s : SCState) (now ttl : Nat) (k : String)
    (v : CacheEntry) (hav : s.cache_available = true)
    (hd : s.redis.down = false) (ht : ttl ≠ 0) :
    store_in_cache s now k v ttl
      = { s with redis := { s.redis with
          strs := upsert s.redis.strs k (v, now + ttl),
          hashes := removeKey s.redis.hashes k } } := by
  simp [store_in_cache, hav, redis_setex, hd, ht]

theorem aliveStr_congr (r r2 : RedisStore) (now : Nat) (k : String)
    (h : lookupBy r.strs k = lookupBy r2.strs k) :
    aliveStr r now k = aliveStr r2 now k := by
  unfold aliveStr
  rw [h]

theorem aliveHash_congr (r r2 : RedisStore) (now : Nat) (k : String)
    (h : lookupBy r.hashes k = lookupBy r2.hashes k) :
    aliveHash r now k = aliveHash r2 now k := by
  unfold aliveHash
  rw [h]

theorem redis_hset_ok_lookup (r : RedisStore) (now : Nat) (k : String)
    (sr : SemRecord) (hd : r.down = false)
    (hfree : aliveStr r now k = none) :
    ∃ r1, redis_hset r now k sr = .ok r1 ∧ r1.down = false ∧ r1.strs = r.strs ∧
      ∃ x, lookupBy r1.hashes k = some (sr, x) ∧ hashAlive now (sr, x) = true := by
  unfold redis_hset
  rw [if_neg (by simp [hd]), if_neg (by simp [hfree])]
  refine ⟨_, rfl, hd, rfl, ?_⟩
  dsimp only
  split
  · next p hp =>
    split
    · next halive => exact ⟨p.2, lookupBy_upsert_self _ _ _, halive⟩
    · exact ⟨none, lookupBy_upsert_self _ _ _, rfl⟩
  · exact ⟨none, lookupBy_upsert_self _ _ _, rfl⟩

theorem redis_expire_ok_set (r : RedisStore) (now ttl : Nat) (k : String)
    (sr : SemRecord) (x : Option Nat) (hd : r.down = false) (ht : ttl ≠ 0)
    (hl : lookupBy r.hashes k = some (sr, x))
    (halive : hashAlive now (sr, x) = true) :
    ∃ r2, redis_expire r now ttl k = .ok r2 ∧
      lookupBy r2.hashes k = some (sr, some (now + ttl)) := by
  unfold redis_expire
  rw [if_neg (by simp [hd]), if_neg ht]
  refine ⟨_, rfl, ?_⟩
  dsimp only
  simp only [hl]
  rw [if_pos halive]
  exact lookupBy_upsert_self _ _ _

/-- On a live networked backend, `_create_semantic_index` leaves a live hash
record `{message, response_key, created}` under the raw-text semantic key. -/
theorem create_semantic_index_writes (s : SCState) (now : Nat)
    (mid um ck : String) (ttl : Nat) (hav : s.cache_available = true)
    (hd : s.redis.down = false) (ht : ttl ≠ 0)
    (hfree : aliveStr s.redis now (semanticIndexKey mid um) = none) :
    aliveHash (create_semantic_index s now mid um ck ttl).redis now
      (semanticIndexKey mid um) = some ⟨um, ck, now⟩ := by
  obtain ⟨r1, hok1, hd1, hstrs1, x, hl1, halive1⟩ :=
    redis_hset_ok_lookup s.redis now (semanticIndexKey mid um) ⟨um, ck, now⟩
      hd hfree
  obtain ⟨r2, hok2, hl2⟩ :=
    redis_expire_ok_set r1 now ttl (semanticIndexKey mid um) ⟨um, ck, now⟩ x
      hd1 ht hl1 halive1
  simp only [create_semantic_index]
  split
  · next h =>
    rw [hav] at h
    exact absurd h (by decide)
  · rw [show ("semantic_index:" ++ mid ++ ":" ++ takeStr (md5HexOfString um) 12)
      = semanticIndexKey mid um from rfl, hok1]
    dsimp only
    rw [hok2]
    dsimp only
    unfold aliveHash
    simp only [hl2]
    rw [if_pos (by simp [hashAlive]; omega)]

/-- C2 (corrected): the semantic index key written by `put` is
`semantic_index:<modelId>:<first 12 hex chars of md5 of the RAW user
message>` — no normalization is applied before hashing — and the record
stored under it holds the raw message and the exact fingerprint. -/
theorem C2_put_indexes_raw_text (s : SCState) (now : Nat) (m : String)
    (msgs : List Message) (resp : String) (mt : Option Nat) (ttl : Nat)
    (um : String) (hav : s.cache_available = true)
    (hd : s.redis.down = false) (ht : ttl ≠ 0)
    (hum : lastUserMessage msgs = some um) (hne : um ≠ "")
    (hfree : aliveStr s.redis now (semanticIndexKey m um) = none) :
    aliveHash (cache_response s now m msgs resp mt ttl).redis now
        (semanticIndexKey m um)
      = some ⟨um, generate_cache_key m msgs mt, now⟩ := by
  have hkey : generate_cache_key m msgs mt ≠ semanticIndexKey m um :=
    cache_key_ne_semantic_key _ m _
  simp only [cache_response, hum, hne, if_false,
    store_in_cache_redis s now ttl _ _ hav hd ht]
  refine create_semantic_index_writes _ now m um _ ttl hav hd ht ?_
  rw [aliveStr_congr _ s.redis now _ (lookupBy_upsert_ne _ _ _ _ (Ne.symm hkey))]
  exact hfree

/-- Witness for C2 (corrected) at a concrete instance. -/
theorem C2_witness :
    aliveHash (cache_response (mkSmartCache true) 0 "m" [⟨"user", "Hi?"⟩] "R"
        none 3600).redis 0 (semanticIndexKey "m" "Hi?")
      = some ⟨"Hi?", generate_cache_key "m" [⟨"user", "Hi?"⟩] none, 0⟩ :=
  C2_put_indexes_raw_text (mkSmartCache true) 0 "m" [⟨"user", "Hi?"⟩] "R" none
    3600 "Hi?" rfl rfl (by decide) (by decide) (by decide) (by decide)

/-- C2 counterexample: for the message `"Hi?"` the key actually written by
`put` hashes the raw text (`md5("Hi?")[:12] = 6356c3e04c9a`), while the
spec's key hashes the normalized text (`md5("hi")[:12] = 49f68a5c8493`);
the two keys differ, and the store contains only the former. -/
theorem C2_counterexample :
    (cache_response (mkSmartCache true) 0 "m" [⟨"user", "Hi?"⟩] "R" none
        3600).redis.hashes.map (fun p => p.1) = ["semantic_index:m:6356c3e04c9a"]
    ∧ specSemanticIndexKey "m" "Hi?" = "semantic_index:m:49f68a5c8493"
    ∧ semanticIndexKey "m" "Hi?" ≠ specSemanticIndexKey "m" "Hi?" :=
  ⟨by decide, by decide, by decide⟩

/-! ### C8: runtime backend failure is fail-soft -/

theorem get_from_cache_mk_stats (avail : Bool) (r : RedisStore)
    (mem : List (String × CacheEntry)) (st st2 : Stats) (now : Nat)
    (k : String) :
    get_from_cache ⟨avail, r, mem, st⟩ now k
      = get_from_cache ⟨avail, r, mem, st2⟩ now k :=
  rfl

theorem simLoop_set_stats (avail : Bool) (r : RedisStore)
    (mem : List (String × CacheEntry)) (st st2 : Stats) (now : Nat)
    (um : String) (thr : ℚ) (ks : List String) :
    ∀ acc, simLoop ⟨avail, r, mem, st⟩ now um thr ks acc
      = simLoop ⟨avail, r, mem, st2⟩ now um thr ks acc := by
  induction ks with
  | nil => intro acc; rfl
  | cons k ks ih =>
    intro acc
    simp only [simLoop]
    simp only [ih, get_from_cache_mk_stats avail r mem st st2]

/-- Setting the stats field does not affect the semantic scan. -/
theorem find_similar_set_stats (s : SCState) (st : Stats) (now : Nat)
    (um mid : String) (thr : ℚ) :
    find_similar_cached_response { s with cache_stats := st } now um mid thr
      = find_similar_cached_response s now um mid thr := by
  obtain ⟨avail, r, mem, st0⟩ := s
  unfold find_similar_cached_response
  dsimp only
  simp only [simLoop_set_stats avail r mem st st0]

theorem find_similar_unavail (s : SCState) (now : Nat) (um mid : String)
    (thr : ℚ) (h : s.cache_available = false) :
    find_similar_cached_response s now um mid thr = none := by
  simp [find_similar_cached_response, h]

theorem find_similar_down (s : SCState) (now : Nat) (um mid : String)
    (thr : ℚ) (hdown : s.redis.down = true) :
    find_similar_cached_response s now um mid thr = none := by
  unfold find_similar_cached_response
  split
  · rfl
  · simp [redis_keys, hdown, Bind.bind, Except.bind]

/-- C8: when the networked backend fails at runtime, a store `get` yields
`None` to the caller (never an error), a store `set` is a silent no-op, `put`
returns normally leaving the instance unchanged, and `get` reports a plain
miss — no operation raises. -/
theorem C8_backend_failure_failsoft (s : SCState) (now : Nat) (k : String)
    (v : CacheEntry) (ttl : Nat) (m : String) (msgs : List Message)
    (resp : String) (mt : Option Nat) (thr : ℚ)
    (hav : s.cache_available = true) (hdown : s.redis.down = true) :
    get_from_cache s now k = none ∧
    store_in_cache s now k v ttl = s ∧
    cache_response s now m msgs resp mt ttl = s ∧
    (get_cached_response s now m msgs mt thr).1 = none := by
  have hg : ∀ k2, get_from_cache s now k2 = none := fun k2 => by
    simp [get_from_cache, hav, redis_get, hdown]
  have hst : ∀ k2 v2, store_in_cache s now k2 v2 ttl = s := fun k2 v2 => by
    simp [store_in_cache, hav, redis_setex, hdown]
  have hcsi : ∀ mid um ck, create_semantic_index s now mid um ck ttl = s :=
    fun mid um ck => by
      simp [create_semantic_index, hav, redis_hset, hdown]
  refine ⟨hg k, hst k v, ?_, ?_⟩
  · simp only [cache_response, hst]
    split
    · next um heq =>
      split
      · rfl
      · exact hcsi _ _ _
    · rfl
  · simp only [get_cached_response, get_from_cache_set_stats, hg]
    split
    · next um heq =>
      split
      · rfl
      · rw [find_similar_set_stats, find_similar_down s now um m thr hdown]
    · rfl

/-- Witness for C8 at a concrete instance (backend up at construction, down at
runtime). -/
theorem C8_witness :
    (get_from_cache ⟨true, ⟨[], [], true⟩, [], ⟨0, 0, 0, 0⟩⟩ 0 "k" = none) ∧
    (store_in_cache ⟨true, ⟨[], [], true⟩, [], ⟨0, 0, 0, 0⟩⟩ 0 "k"
        ⟨"R", 0, "m", 5, none⟩ 5 = ⟨true, ⟨[], [], true⟩, [], ⟨0, 0, 0, 0⟩⟩) ∧
    (cache_response ⟨true, ⟨[], [], true⟩, [], ⟨0, 0, 0, 0⟩⟩ 0 "m"
        [⟨"user", "hi"⟩] "R" none 5 = ⟨true, ⟨[], [], true⟩, [], ⟨0, 0, 0, 0⟩⟩) ∧
    (get_cached_response ⟨true, ⟨[], [], true⟩, [], ⟨0, 0, 0, 0⟩⟩ 0 "m"
        [⟨"user", "hi"⟩] none (mkRat 17 20)).1 = none := by
  have h := C8_backend_failure_failsoft ⟨true, ⟨[], [], true⟩, [], ⟨0, 0, 0, 0⟩⟩
    0 "k" ⟨"R", 0, "m", 5, none⟩ 5 "m" [⟨"user", "hi"⟩] "R" none (mkRat 17 20)
    rfl rfl
  exact ⟨h.1, h.2.1, h.2.2.1, h.2.2.2⟩

/-! ### C10: the fallback backend never serves semantic hits -/

/-- C10: when the construction-time probe failed (fallback backend), `put`
never writes a semantic-index record (the redis store is untouched entirely)
and every hit `get` returns is tagged `exact_match`. -/
theorem C10_fallback_only_exact (s : SCState) (now : Nat) (m : String)
    (msgs : List Message) (resp : String) (mt : Option Nat) (ttl : Nat)
    (thr : ℚ) (e : CacheEntry) (hav : s.cache_available = false) :
    (cache_response s now m msgs resp mt ttl).redis = s.redis ∧
    ((get_cached_response s now m msgs mt thr).1 = some e →
      e.cache_type = some "exact_match") := by
  constructor
  · simp only [cache_response, store_in_cache, hav, Bool.false_eq_true,
      if_false]
    split
    · next um heq =>
      split
      · rfl
      · rw [create_semantic_index_unavail]
        rfl
    · rfl
  · intro h
    simp only [get_cached_response] at h
    split at h
    · next cached heq =>
      injection h with h
      rw [← h]
    · split at h
      · next um heq =>
        split at h
        · exact absurd h (by simp)
        · rw [find_similar_set_stats, find_similar_unavail s now um m thr hav]
            at h
          exact absurd h (by simp)
      · exact absurd h (by simp)

/-- Witness for C10 at a concrete instance. -/
theorem C10_witness :
    ((cache_response (mkSmartCache false) 0 "m" [⟨"user", "hi"⟩] "R" none
        3600).redis = (mkSmartCache false).redis) ∧
    ((get_cached_response (mkSmartCache false) 0 "m" [⟨"user", "hi"⟩] none
        (mkRat 17 20)).1 = some ⟨"R", 0, "m", 3600, some "exact_match"⟩ →
      (⟨"R", 0, "m", 3600, some "exact_match"⟩ : CacheEntry).cache_type
        = some "exact_match") :=
  C10_fallback_only_exact (mkSmartCache false) 0 "m" [⟨"user", "hi"⟩] "R" none
    3600 (mkRat 17 20) ⟨"R", 0, "m", 3600, some "exact_match"⟩ rfl

/-! ### C3: ttl = 0 / expired entries -/

theorem lookupBy_nil {α : Type} (k : String) :
    lookupBy ([] : List (String × α)) k = none :=
  rfl

theorem lookupBy_mem {α : Type} (l : List (String × α)) (k : String) (v : α)
    (h : lookupBy l k = some v) : (k, v) ∈ l := by
  induction l with
  | nil => simp [lookupBy] at h
  | cons hd t ih =>
    obtain ⟨k2, v2⟩ := hd
    rw [lookupBy_cons] at h
    by_cases hk : k2 = k
    · rw [if_pos hk] at h
      injection h with h
      subst h
      subst hk
      exact List.mem_cons_self _ _
    · rw [if_neg hk] at h
      exact List.mem_cons_of_mem _ (ih h)

/-- When every stored entry has expired by `now2`, any `get` is a miss. -/
theorem get_none_of_all_dead (s : SCState) (now2 : Nat) (m2 : String)
    (msgs2 : List Message) (mt2 : Option Nat) (thr : ℚ)
    (hav : s.cache_available = true)
    (hstr : ∀ p ∈ s.redis.strs, p.2.2 ≤ now2)
    (hhash : ∀ p ∈ s.redis.hashes, ∃ exp, p.2.2 = some exp ∧ exp ≤ now2) :
    (get_cached_response s now2 m2 msgs2 mt2 thr).1 = none := by
  have hAS : ∀ k, aliveStr s.redis now2 k = none := fun k => by
    unfold aliveStr
    cases hl : lookupBy s.redis.strs k with
    | none => rfl
    | some p =>
      have hle : p.2 ≤ now2 := hstr _ (lookupBy_mem _ _ _ hl)
      have hfalse : strAlive now2 p = false := by
        simp only [strAlive, decide_eq_false_iff_not]
        omega
      simp [hfalse]
  have hAH : ∀ k, aliveHash s.redis now2 k = none := fun k => by
    unfold aliveHash
    cases hl : lookupBy s.redis.hashes k with
    | none => rfl
    | some p =>
      obtain ⟨exp, hpe, hle⟩ := hhash _ (lookupBy_mem _ _ _ hl)
      have hpe2 : p.2 = some exp := hpe
      have hfalse : hashAlive now2 p = false := by
        simp only [hashAlive, hpe2, decide_eq_false_iff_not]
        omega
      simp [hfalse]
  have hg : ∀ k, get_from_cache s now2 k = none := fun k => by
    unfold get_from_cache
    rw [if_pos hav]
    cases hd : s.redis.down with
    | true => simp [redis_get, hd]
    | false => simp [redis_get, hd, hAH k, hAS k]
  have hfs : ∀ um mid, find_similar_cached_response s now2 um mid thr = none :=
    fun um mid => by
      unfold find_similar_cached_response
      rw [if_neg (by simp [hav])]
      cases hd : s.redis.down with
      | true => simp [redis_keys, hd, Bind.bind, Except.bind]
      | false =>
        have h1 : s.redis.strs.filter (fun p => strAlive now2 p.2) = [] := by
          rw [List.filter_eq_nil_iff]
          intro p hp
          have hle := hstr p hp
          simp only [strAlive, decide_eq_true_eq]
          omega
        have h2 : s.redis.hashes.filter (fun p => hashAlive now2 p.2) = [] := by
          rw [List.filter_eq_nil_iff]
          intro p hp
          obtain ⟨exp, hpe, hle⟩ := hhash p hp
          simp only [hashAlive, hpe]
          simp only [decide_eq_true_eq]
          omega
        simp [redis_keys, hd, h1, h2, Bind.bind, Except.bind, simLoop]
  simp only [get_cached_response, get_from_cache_set_stats, hg]
  split
  · next um heq =>
    split
    · rfl
    · rw [find_similar_set_stats, hfs]
  · rfl

theorem cache_response_stats_avail (s : SCState) (now : Nat) (m : String)
    (msgs : List Message) (resp : String) (mt : Option Nat) (ttl : Nat) :
    (cache_response s now m msgs resp mt ttl).cache_available
        = s.cache_available ∧
    (cache_response s now m msgs resp mt ttl).cache_stats = s.cache_stats := by
  have hst : ∀ k v, (store_in_cache s now k v ttl).cache_available
        = s.cache_available ∧
      (store_in_cache s now k v ttl).cache_stats = s.cache_stats := by
    intro k v
    unfold store_in_cache
    split
    · split <;> exact ⟨rfl, rfl⟩
    · exact ⟨rfl, rfl⟩
  have hcsi : ∀ (s2 : SCState) mid um ck,
      (create_semantic_index s2 now mid um ck ttl).cache_available
          = s2.cache_available ∧
      (create_semantic_index s2 now mid um ck ttl).cache_stats
          = s2.cache_stats := by
    intro s2 mid um ck
    simp only [create_semantic_index]
    split
    · exact ⟨rfl, rfl⟩
    · split
      · exact ⟨rfl, rfl⟩
      · split <;> exact ⟨rfl, rfl⟩
  simp only [cache_response]
  split
  · next um heq =>
    split
    · exact hst _ _
    · constructor
      · rw [(hcsi _ _ _ _).1, (hst _ _).1]
      · rw [(hcsi _ _ _ _).2, (hst _ _).2]
  · exact hst _ _

/-- Starting from an empty networked store, everything a single `put` writes
carries expiry `now + ttl` (for `ttl = 0` nothing survives at all: `SETEX`
raises and `EXPIRE 0` deletes the just-written hash). -/
theorem cache_response_from_empty_shape (s : SCState) (now : Nat) (m : String)
    (msgs : List Message) (resp : String) (mt : Option Nat) (ttl : Nat)
    (hav : s.cache_available = true) (hred : s.redis = ⟨[], [], false⟩) :
    (∀ p ∈ (cache_response s now m msgs resp mt ttl).redis.strs,
      p.2.2 = now + ttl) ∧
    (∀ p ∈ (cache_response s now m msgs resp mt ttl).redis.hashes,
      p.2.2 = some (now + ttl)) := by
  by_cases ht : ttl = 0
  · subst ht
    have hstore : ∀ k v, store_in_cache s now k v 0 = s := fun k v => by
      simp [store_in_cache, hav, redis_setex, hred]
    simp only [cache_response, hstore]
    split
    · next um heq =>
      split
      · simp [hred]
      · have hcsi : create_semantic_index s now m um
            (generate_cache_key m msgs mt) 0
            = { s with redis := ⟨[], [], false⟩ } := by
          simp [create_semantic_index, hav, redis_hset, hred, aliveStr,
            lookupBy, redis_expire, upsert, removeKey]
        rw [hcsi]
        simp
    · simp [hred]
  · have hstore : store_in_cache s now (generate_cache_key m msgs mt)
        ⟨resp, now, m, ttl, none⟩ ttl
        = { s with redis :=
            ⟨[(generate_cache_key m msgs mt,
                ⟨resp, now, m, ttl, none⟩, now + ttl)], [], false⟩ } := by
      simp [store_in_cache, hav, redis_setex, hred, ht, upsert, removeKey]
    simp only [cache_response, hstore]
    split
    · next um heq =>
      split
      · simp
      · have hne : generate_cache_key m msgs mt
            ≠ "semantic_index:" ++ m ++ ":" ++ takeStr (md5HexOfString um) 12 :=
          cache_key_ne_semantic_key _ m _
        have hcsi : create_semantic_index
            ({ s with redis :=
              ⟨[(generate_cache_key m msgs mt,
                  ⟨resp, now, m, ttl, none⟩, now + ttl)], [], false⟩ }) now m um
              (generate_cache_key m msgs mt) ttl
            = { s with redis :=
              ⟨[(generate_cache_key m msgs mt,
                  ⟨resp, now, m, ttl, none⟩, now + ttl)],
                [("semantic_index:" ++ m ++ ":" ++ takeStr (md5HexOfString um) 12,
                  ⟨um, generate_cache_key m msgs mt, now⟩, some (now + ttl))],
                false⟩ } := by
          simp [create_semantic_index, hav, redis_hset, aliveStr, lookupBy_cons,
            lookupBy_nil, hne, redis_expire, ht, hashAlive, upsert_cons,
            upsert, removeKey]
        rw [hcsi]
        constructor
        · intro p hp
          simp only [List.mem_singleton] at hp
          subst hp
          rfl
        · intro p hp
          simp only [List.mem_singleton] at hp
          subst hp
          rfl
    · constructor
      · intro p hp
        simp only [List.mem_singleton] at hp
        subst hp
        rfl
      · intro p hp
        simp at hp

/-- C3 (corrected, networked half): on the networked backend, starting from an
empty store, an entry stored with `ttl = 0` (rejected by `SETEX`, and its
semantic record deleted by `EXPIRE 0`) or whose ttl has elapsed by the time of
the lookup (`now + ttl ≤ now2`) is never returned by any subsequent `get` —
neither exactly nor semantically. -/
theorem C3_ttl_respected_on_networked (s : SCState) (now now2 : Nat)
    (m : String) (msgs : List Message) (resp : String) (mt : Option Nat)
    (ttl : Nat) (m2 : String) (msgs2 : List Message) (mt2 : Option Nat)
    (thr : ℚ) (hav : s.cache_available = true)
    (hred : s.redis = ⟨[], [], false⟩) (hexp : now + ttl ≤ now2) :
    (get_cached_response (cache_response s now m msgs resp mt ttl) now2 m2
        msgs2 mt2 thr).1 = none := by
  obtain ⟨h1, h2⟩ :=
    cache_response_from_empty_shape s now m msgs resp mt ttl hav hred
  refine get_none_of_all_dead _ now2 m2 msgs2 mt2 thr ?_ (fun p hp => ?_)
    (fun p hp => ?_)
  · rw [(cache_response_stats_avail s now m msgs resp mt ttl).1]
    exact hav
  · rw [h1 p hp]
    exact hexp
  · exact ⟨now + ttl, h2 p hp, hexp⟩

/-- Witness for the networked half of C3: a `ttl = 0` put on a fresh instance
is not returned by an immediate identical get. -/
theorem C3_witness :
    (get_cached_response
        (cache_response (mkSmartCache true) 0 "m" [⟨"user", "hi"⟩] "R" none 0)
        0 "m" [⟨"user", "hi"⟩] none (mkRat 17 20)).1 = none :=
  C3_ttl_respected_on_networked (mkSmartCache true) 0 0 "m" [⟨"user", "hi"⟩]
    "R" none 0 "m" [⟨"user", "hi"⟩] none (mkRat 17 20) rfl rfl (by decide)

/-- C3 counterexample: on the in-process fallback backend the claim fails —
`_store_in_cache` ignores `ttl` entirely and `_get_from_cache` performs no
expiry filtering, so an entry stored with `ttl = 0` is still returned by a
`get` five time units later. -/
theorem C3_counterexample :
    (get_cached_response
        (cache_response (mkSmartCache false) 0 "m" [⟨"user", "hi"⟩] "R" none 0)
        5 "m" [⟨"user", "hi"⟩] none (mkRat 17 20)).1
      = some ⟨"R", 0, "m", 0, some "exact_match"⟩ := by
  decide

/-! ### C4: mutation of stored entries -/

/-- C4 (corrected): a `get` never touches the redis store at all (on the
networked backend the returned dict is a fresh `json.loads` copy, so tagging
it mutates nothing stored), and on the in-process fallback backend a `get`
either leaves the dict untouched (miss) or — because the returned dict *is*
the stored one — updates exactly the hit entry by setting its `cache_type`
field, leaving all other fields and all other entries unchanged. -/
theorem C4_get_mutates_only_fallback_tag (s : SCState) (now : Nat)
    (m : String) (msgs : List Message) (mt : Option Nat) (thr : ℚ) :
    ((get_cached_response s now m msgs mt thr).2.redis = s.redis) ∧
    (s.cache_available = true →
      (get_cached_response s now m msgs mt thr).2.memory_cache
        = s.memory_cache) ∧
    (s.cache_available = false →
      (get_cached_response s now m msgs mt thr).2.memory_cache = s.memory_cache
      ∨ ∃ e, lookupBy s.memory_cache (generate_cache_key m msgs mt) = some e ∧
          (get_cached_response s now m msgs mt thr).2.memory_cache
            = upsert s.memory_cache (generate_cache_key m msgs mt)
                { e with cache_type := some "exact_match" }) := by
  simp only [get_cached_response, get_from_cache_set_stats]
  split
  · next cached heq =>
    split
    · next h =>
      exact ⟨rfl, fun _ => rfl,
        fun hfalse => absurd (show s.cache_available = true from h)
          (by simp [hfalse])⟩
    · next h =>
      have hc2 : s.cache_available = false := by
        cases hcv : s.cache_available
        · rfl
        · exact absurd hcv h
      refine ⟨rfl, fun htrue => absurd htrue (by simp [hc2]),
        fun _ => Or.inr ⟨cached, ?_, rfl⟩⟩
      unfold get_from_cache at heq
      rw [if_neg (by simp [hc2])] at heq
      exact heq
  · split
    · next um heq2 =>
      split
      · exact ⟨rfl, fun _ => rfl, fun _ => Or.inl rfl⟩
      · split
        · exact ⟨rfl, fun _ => rfl, fun _ => Or.inl rfl⟩
        · exact ⟨rfl, fun _ => rfl, fun _ => Or.inl rfl⟩
    · exact ⟨rfl, fun _ => rfl, fun _ => Or.inl rfl⟩

/-- Witness for C4 (corrected) at a concrete fallback instance. -/
theorem C4_witness :
    (get_cached_response (mkSmartCache false) 0 "m" [⟨"user", "hi"⟩] none
        (mkRat 17 20)).2.memory_cache = (mkSmartCache false).memory_cache
    ∨ ∃ e, lookupBy (mkSmartCache false).memory_cache
          (generate_cache_key "m" [⟨"user", "hi"⟩] none) = some e ∧
        (get_cached_response (mkSmartCache false) 0 "m" [⟨"user", "hi"⟩] none
            (mkRat 17 20)).2.memory_cache
          = upsert (mkSmartCache false).memory_cache
              (generate_cache_key "m" [⟨"user", "hi"⟩] none)
              { e with cache_type := some "exact_match" } :=
  (C4_get_mutates_only_fallback_tag (mkSmartCache false) 0 "m"
    [⟨"user", "hi"⟩] none (mkRat 17 20)).2.2 rfl

/-- C4 counterexample: on the fallback backend, after `put` the stored entry
has no `cache_type` field; after one exact-hit `get` the entry *in the store*
has gained `cache_type = exact_match` — the stored CacheEntry was mutated by a
subsequent operation. -/
theorem C4_counterexample :
    (lookupBy (cache_response (mkSmartCache false) 0 "m" [⟨"user", "hi"⟩] "R"
          none 3600).memory_cache (generate_cache_key "m" [⟨"user", "hi"⟩] none)
        = some ⟨"R", 0, "m", 3600, none⟩)
    ∧ (lookupBy ((get_cached_response
          (cache_response (mkSmartCache false) 0 "m" [⟨"user", "hi"⟩] "R" none
            3600) 0 "m" [⟨"user", "hi"⟩] none (mkRat 17 20)).2.memory_cache)
          (generate_cache_key "m" [⟨"user", "hi"⟩] none)
        = some ⟨"R", 0, "m", 3600, some "exact_match"⟩)
    ∧ (⟨"R", 0, "m", 3600, none⟩ : CacheEntry)
        ≠ ⟨"R", 0, "m", 3600, some "exact_match"⟩ :=
  ⟨by decide, by decide, by decide⟩

/-! ### C9: the hit/miss counters -/

/-- Each `get_cached_response` increments `total_requests` by exactly one and
exactly one of `hits`/`misses` by exactly one. -/
theorem get_stats_delta (s : SCState) (now : Nat) (m : String)
    (msgs : List Message) (mt : Option Nat) (thr : ℚ) :
    (get_cached_response s now m msgs mt thr).2.cache_stats.total_requests
        = s.cache_stats.total_requests + 1 ∧
    ((get_cached_response s now m msgs mt thr).2.cache_stats.hits
          = s.cache_stats.hits + 1 ∧
      (get_cached_response s now m msgs mt thr).2.cache_stats.misses
          = s.cache_stats.misses
      ∨ (get_cached_response s now m msgs mt thr).2.cache_stats.hits
          = s.cache_stats.hits ∧
        (get_cached_response s now m msgs mt thr).2.cache_stats.misses
          = s.cache_stats.misses + 1) := by
  simp only [get_cached_response]
  split
  · split
    · exact ⟨rfl, Or.inl ⟨rfl, rfl⟩⟩
    · exact ⟨rfl, Or.inl ⟨rfl, rfl⟩⟩
  · split
    · split
      · exact ⟨rfl, Or.inr ⟨rfl, rfl⟩⟩
      · split
        · exact ⟨rfl, Or.inl ⟨rfl, rfl⟩⟩
        · exact ⟨rfl, Or.inr ⟨rfl, rfl⟩⟩
    · exact ⟨rfl, Or.inr ⟨rfl, rfl⟩⟩

/-- C9: every `get` increments `total_requests` by exactly one and exactly one
of `hits`/`misses` by exactly one; `put` never touches the counters (and
`stats` is a pure read, `applyOp _ .stats` being the identity by definition);
hence `hits + misses = total_requests` holds after every sequence of
operations that starts from a state satisfying it — in particular from a
freshly constructed instance. -/
theorem C9_counter_invariant :
    (∀ (s : SCState) (now : Nat) (m : String) (msgs : List Message)
        (mt : Option Nat) (thr : ℚ),
      (get_cached_response s now m msgs mt thr).2.cache_stats.total_requests
          = s.cache_stats.total_requests + 1 ∧
      ((get_cached_response s now m msgs mt thr).2.cache_stats.hits
            = s.cache_stats.hits + 1 ∧
        (get_cached_response s now m msgs mt thr).2.cache_stats.misses
            = s.cache_stats.misses
        ∨ (get_cached_response s now m msgs mt thr).2.cache_stats.hits
            = s.cache_stats.hits ∧
          (get_cached_response s now m msgs mt thr).2.cache_stats.misses
            = s.cache_stats.misses + 1)) ∧
    (∀ (s : SCState) (now : Nat) (m : String) (msgs : List Message)
        (resp : String) (mt : Option Nat) (ttl : Nat),
      (cache_response s now m msgs resp mt ttl).cache_stats = s.cache_stats) ∧
    (∀ (s : SCState) (ops : List CacheOp),
      s.cache_stats.hits + s.cache_stats.misses
          = s.cache_stats.total_requests →
      (runOps s ops).cache_stats.hits + (runOps s ops).cache_stats.misses
        = (runOps s ops).cache_stats.total_requests) := by
  refine ⟨fun s now m msgs mt thr => get_stats_delta s now m msgs mt thr,
    fun s now m msgs resp mt ttl =>
      (cache_response_stats_avail s now m msgs resp mt ttl).2, ?_⟩
  intro s ops
  induction ops generalizing s with
  | nil => exact fun h => h
  | cons op ops ih =>
    intro h
    simp only [runOps]
    refine ih (applyOp s op) ?_
    cases op with
    | get now m msgs mt thr =>
      obtain ⟨h1, h2⟩ := get_stats_delta s now m msgs mt thr
      simp only [applyOp]
      rcases h2 with ⟨hh, hm⟩ | ⟨hh, hm⟩ <;> rw [hh, hm, h1] <;> omega
    | put now m msgs resp mt ttl =>
      simp only [applyOp]
      rw [(cache_response_stats_avail s now m msgs resp mt ttl).2]
      exact h
    | stats => exact h

/-- Witness for C9's sequence invariant on a concrete run (miss, put, hit,
stats read) from a fresh instance. -/
theorem C9_witness :
    (runOps (mkSmartCache false)
        [CacheOp.get 0 "m" [⟨"user", "hi"⟩] none (mkRat 17 20),
         CacheOp.put 1 "m" [⟨"user", "hi"⟩] "R" none 3600,
         CacheOp.get 2 "m" [⟨"user", "hi"⟩] none (mkRat 17 20),
         CacheOp.stats]).cache_stats.hits
      + (runOps (mkSmartCache false)
        [CacheOp.get 0 "m" [⟨"user", "hi"⟩] none (mkRat 17 20),
         CacheOp.put 1 "m" [⟨"user", "hi"⟩] "R" none 3600,
         CacheOp.get 2 "m" [⟨"user", "hi"⟩] none (mkRat 17 20),
         CacheOp.stats]).cache_stats.misses
      = (runOps (mkSmartCache false)
        [CacheOp.get 0 "m" [⟨"user", "hi"⟩] none (mkRat 17 20),
         CacheOp.put 1 "m" [⟨"user", "hi"⟩] "R" none 3600,
         CacheOp.get 2 "m" [⟨"user", "hi"⟩] none (mkRat 17 20),
         CacheOp.stats]).cache_stats.total_requests :=
  C9_counter_invariant.2.2 (mkSmartCache false)
    [CacheOp.get 0 "m" [⟨"user", "hi"⟩] none (mkRat 17 20),
     CacheOp.put 1 "m" [⟨"user", "hi"⟩] "R" none 3600,
     CacheOp.get 2 "m" [⟨"user", "hi"⟩] none (mkRat 17 20),
     CacheOp.stats] (by decide)

/-! ### C5: model namespacing of the semantic scan -/

/-- A literal-plus-trailing-star pattern matches a non-empty string exactly
when the literal is a prefix of it (the literal must be free of the glob
metacharacters `*`, `?`, `[`, `\`). -/
theorem glob_lit_star : ∀ (fuel : Nat) (lit s : List Char),
    lit.length + s.length + 1 < fuel →
    (∀ c ∈ lit, c ≠ '*' ∧ c ≠ '?' ∧ c ≠ '[' ∧ c ≠ '\\') →
    s ≠ [] →
    globMatchF fuel (lit ++ ['*']) s = beginsWith lit s := by
  intro fuel
  induction fuel with
  | zero => intro lit s h hc hs; exact absurd h (by omega)
  | succ f ih =>
    intro lit s h hc hs
    cases s with
    | nil => exact absurd rfl hs
    | cons b bs =>
      cases lit with
      | nil =>
        show globMatchF (f + 1) ['*'] (b :: bs) = beginsWith [] (b :: bs)
        simp [globMatchF, stripStars, beginsWith]
      | cons a as =>
        have ha := hc a (List.mem_cons_self a as)
        simp only [List.cons_append, globMatchF]
        rw [if_neg ha.1, if_neg ha.2.1, if_neg ha.2.2.1, if_neg ha.2.2.2]
        by_cases hab : a = b
        · subst hab
          rw [if_pos (by simp)]
          cases bs with
          | nil =>
            cases as with
            | nil => simp [stripStars, beginsWith]
            | cons a2 as2 =>
              have ha2 := hc a2 (List.mem_cons_of_mem _ (List.mem_cons_self _ _))
              simp [stripStars, beginsWith, ha2.1]
          | cons b2 bs2 =>
            have h2 := ih as (b2 :: bs2) (by simp at h ⊢; omega)
              (fun c hcm => hc c (List.mem_cons_of_mem _ hcm)) (by simp)
            simp [beginsWith, h2]
        · rw [if_neg (by simp [hab])]
          simp [beginsWith, hab]

theorem beginsWith_append_left : ∀ (pre x y : List Char),
    beginsWith (pre ++ x) (pre ++ y) = beginsWith x y := by
  intro pre
  induction pre with
  | nil => intro x y; rfl
  | cons a as ih => intro x y; simp [beginsWith, ih]

theorem beginsWith_colon_sep : ∀ (m1 m2 t : List Char),
    (∀ c ∈ m1, c ≠ ':') → (∀ c ∈ m2, c ≠ ':') → m1 ≠ m2 →
    beginsWith (m1 ++ [':']) (m2 ++ ':' :: t) = false := by
  intro m1
  induction m1 with
  | nil =>
    intro m2 t h1 h2 hne
    cases m2 with
    | nil => exact absurd rfl hne
    | cons b bs =>
      have hb := h2 b (List.mem_cons_self _ _)
      simp [beginsWith, Ne.symm hb]
  | cons a as ih =>
    intro m2 t h1 h2 hne
    have ha := h1 a (List.mem_cons_self _ _)
    cases m2 with
    | nil => simp [beginsWith, ha]
    | cons b bs =>
      by_cases hab : a = b
      · subst hab
        have hne2 : as ≠ bs := fun hh => hne (by rw [hh])
        simp [beginsWith,
          ih bs t (fun c hc => h1 c (List.mem_cons_of_mem _ hc))
            (fun c hc => h2 c (List.mem_cons_of_mem _ hc)) hne2]
      · simp [beginsWith, hab]

theorem cleanId_spec (m : String) (h : cleanId m = true) :
    ∀ c ∈ m.data, c ≠ ':' ∧ c ≠ '*' ∧ c ≠ '?' ∧ c ≠ '[' ∧ c ≠ '\\' := by
  intro c hc
  have h2 := (List.all_eq_true.mp h) c hc
  simp at h2
  exact ⟨h2.1.1.1.1, h2.1.1.1.2, h2.1.1.2, h2.1.2, h2.2⟩

theorem string_data_ne (m1 m2 : String) (hne : m1 ≠ m2) : m1.data ≠ m2.data := by
  intro h
  obtain ⟨d1⟩ := m1
  obtain ⟨d2⟩ := m2
  simp only at h
  exact hne (by rw [h])

/-- Distinct clean (colon- and glob-free) model ids: the scan pattern of `m1`
never matches a semantic key of `m2`. -/
theorem semantic_scan_no_cross (m1 m2 t : String)
    (h1 : cleanId m1 = true) (h2 : cleanId m2 = true) (hne : m1 ≠ m2) :
    globMatch ("semantic_index:" ++ m1 ++ ":*")
      ("semantic_index:" ++ m2 ++ ":" ++ t) = false := by
  have hpat : ("semantic_index:" ++ m1 ++ ":*").data
      = (("semantic_index:".data ++ m1.data) ++ [':']) ++ ['*'] := by
    simp [String.data_append]
  have hkey : ("semantic_index:" ++ m2 ++ ":" ++ t).data
      = ("semantic_index:".data ++ m2.data) ++ ':' :: t.data := by
    simp [String.data_append]
  unfold globMatch
  rw [hpat, hkey]
  rw [glob_lit_star _ _ _ (by simp) ?hclean (by simp)]
  case hclean =>
    intro c hc
    simp only [List.mem_append] at hc
    rcases hc with hc | hc
    · rcases hc with hc | hc
      · revert c
        decide
      · have h5 := cleanId_spec m1 h1 c hc
        exact ⟨h5.2.1, h5.2.2.1, h5.2.2.2.1, h5.2.2.2.2⟩
    · simp at hc
      subst hc
      exact ⟨by decide, by decide, by decide, by decide⟩
  rw [List.append_assoc, List.append_assoc, beginsWith_append_left]
  exact beginsWith_colon_sep m1.data m2.data t.data
    (fun c hc => (cleanId_spec m1 h1 c hc).1)
    (fun c hc => (cleanId_spec m2 h2 c hc).1)
    (string_data_ne m1 m2 hne)

theorem beginsWith_cons_inv (a : Char) (as l : List Char)
    (h : beginsWith (a :: as) l = true) : ∃ l2, l = a :: l2 := by
  cases l with
  | nil => exact absurd h (by simp [beginsWith])
  | cons b bs =>
    refine ⟨bs, ?_⟩
    have hb : a = b := by
      by_contra hab
      simp [beginsWith, hab] at h
    rw [hb]

theorem semPat_lit_clean (m1 : String) (h1 : cleanId m1 = true) :
    ∀ c ∈ ("semantic_index:".data ++ m1.data) ++ [':'],
      c ≠ '*' ∧ c ≠ '?' ∧ c ≠ '[' ∧ c ≠ '\\' := by
  intro c hc
  simp only [List.mem_append] at hc
  rcases hc with hc | hc
  · rcases hc with hc | hc
    · revert c
      decide
    · have h5 := cleanId_spec m1 h1 c hc
      exact ⟨h5.2.1, h5.2.2.1, h5.2.2.2.1, h5.2.2.2.2⟩
  · simp at hc
    subst hc
    exact ⟨by decide, by decide, by decide, by decide⟩

/-- The scan pattern for any model id never matches a `claude_cache:` key. -/
theorem claude_key_no_match (m1 k : String) (h1 : cleanId m1 = true)
    (hk : beginsWith ("claude_cache:").data k.data = true) :
    globMatch ("semantic_index:" ++ m1 ++ ":*") k = false := by
  obtain ⟨rest, hrest⟩ := beginsWith_cons_inv 'c' (("laude_cache:").data) k.data
    (by rw [show ("claude_cache:").data = 'c' :: ("laude_cache:").data from rfl]
        at hk
        exact hk)
  have hpat : ("semantic_index:" ++ m1 ++ ":*").data
      = (("semantic_index:".data ++ m1.data) ++ [':']) ++ ['*'] := by
    simp [String.data_append]
  unfold globMatch
  rw [hpat, hrest]
  rw [glob_lit_star _ _ _ (by simp) (semPat_lit_clean m1 h1) (by simp)]
  rw [show ("semantic_index:".data = 's' :: ("emantic_index:").data) from rfl]
  simp [beginsWith]

/-- C5 (corrected): provided both model ids are free of `:` and of every
redis glob metacharacter (`*`, `?`, `[`, `\`), a similarity lookup for `m1`
against a store whose semantic records were all indexed under `m2 ≠ m1` finds
nothing, and a `get` for `m1` can only ever hit exactly.  (The counterexample
shows this fails without the cleanliness proviso: real model ids contain
`:`.) -/
theorem C5_clean_model_ids_isolate (s : SCState) (now : Nat)
    (q m1 m2 : String) (thr : ℚ) (msgs : List Message) (mt : Option Nat)
    (h1 : cleanId m1 = true) (h2 : cleanId m2 = true) (hne : m1 ≠ m2)
    (hall : allForModel s.redis m2 = true)
    (hstrs : strsWellKeyed s.redis = true) :
    find_similar_cached_response s now q m1 thr = none ∧
    ∀ e, (get_cached_response s now m1 msgs mt thr).1 = some e →
      e.cache_type = some "exact_match" := by
  have hfs : ∀ um, find_similar_cached_response s now um m1 thr = none := by
    intro um
    unfold find_similar_cached_response
    split
    · rfl
    · cases hd : s.redis.down with
      | true => simp [redis_keys, hd, Bind.bind, Except.bind]
      | false =>
        have hfilter :
            (((s.redis.strs.filter (fun p => strAlive now p.2)).map
                (fun p => p.1))
              ++ ((s.redis.hashes.filter (fun p => hashAlive now p.2)).map
                (fun p => p.1))).filter
              (fun k => globMatch ("semantic_index:" ++ m1 ++ ":*") k) = [] := by
          rw [List.filter_eq_nil_iff]
          intro k hk
          rw [Bool.not_eq_true]
          rcases List.mem_append.mp hk with hk | hk
          · obtain ⟨p, hpf, hpk⟩ := List.mem_map.mp hk
            have hpmem := (List.mem_filter.mp hpf).1
            have hbw := (List.all_eq_true.mp hstrs) p hpmem
            rw [← hpk]
            exact claude_key_no_match m1 p.1 h1 hbw
          · obtain ⟨p, hpf, hpk⟩ := List.mem_map.mp hk
            have hpmem := (List.mem_filter.mp hpf).1
            have hkey := (List.all_eq_true.mp hall) p hpmem
            have hkey2 : p.1 = semanticIndexKey m2 p.2.1.message := by
              simpa using hkey
            rw [← hpk, hkey2]
            exact semantic_scan_no_cross m1 m2 _ h1 h2 hne
        simp [redis_keys, hd, hfilter, Bind.bind, Except.bind, simLoop]
  refine ⟨hfs q, fun e he => ?_⟩
  simp only [get_cached_response] at he
  split at he
  · next cached heq =>
    injection he with he
    rw [← he]
  · split at he
    · next um heq2 =>
      split at he
      · exact absurd he (by simp)
      · rw [find_similar_set_stats, hfs um] at he
        exact absurd he (by simp)
    · exact absurd he (by simp)

/-- Witness for C5 (corrected): colon-free model ids `m` and `other` do not
cross even with identical stored text. -/
theorem C5_witness :
    find_similar_cached_response
        (cache_response (mkSmartCache true) 0 "other" [⟨"user", "hello"⟩] "R"
          none 3600) 0 "hello" "m" (mkRat 17 20) = none
    ∧ ∀ e, (get_cached_response
        (cache_response (mkSmartCache true) 0 "other" [⟨"user", "hello"⟩] "R"
          none 3600) 0 "m" [⟨"user", "hello"⟩] none (mkRat 17 20)).1 = some e →
        e.cache_type = some "exact_match" :=
  C5_clean_model_ids_isolate
    (cache_response (mkSmartCache true) 0 "other" [⟨"user", "hello"⟩] "R" none
      3600) 0 "hello" "m" "other" (mkRat 17 20) [⟨"user", "hello"⟩] none
    (by decide) (by decide) (by decide) (by decide) (by decide)

/-- C5 counterexample: with the very model id the repository's demo uses
(`us.anthropic.claude-3-5-haiku-20241022-v1:0`, which contains `:`), a put
under it is found by a semantic lookup for the *distinct* model id
`us.anthropic.claude-3-5-haiku-20241022-v1`, because the glob pattern
`semantic_index:us.anthropic.claude-3-5-haiku-20241022-v1:*` matches the
other model's semantic key.  The returned entry's own `model_id` field
records the foreign model. -/
theorem C5_counterexample :
    (get_cached_response
        (cache_response (mkSmartCache true) 0
          "us.anthropic.claude-3-5-haiku-20241022-v1:0" [⟨"user", "hello"⟩]
          "R" none 3600)
        0 "us.anthropic.claude-3-5-haiku-20241022-v1" [⟨"user", "hello"⟩]
        none (mkRat 17 20)).1
      = some ⟨"R", 0, "us.anthropic.claude-3-5-haiku-20241022-v1:0", 3600,
          some "semantic_match"⟩ := by
  decide

/-! ### C6: the scan loop computes the first-encountered argmax -/

theorem find?_congr_mem {α : Type} (l : List α) (p1 p2 : α → Bool)
    (h : ∀ x ∈ l, p1 x = p2 x) : l.find? p1 = l.find? p2 := by
  induction l with
  | nil => rfl
  | cons a t ih =>
    have ha := h a (List.mem_cons_self _ _)
    cases hp : p1 a with
    | true =>
      have hp2 : p2 a = true := by rw [← ha]; exact hp
      rw [List.find?_cons_of_pos _ hp, List.find?_cons_of_pos _ hp2]
    | false =>
      have hp2 : p2 a = false := by rw [← ha]; exact hp
      rw [List.find?_cons_of_neg _ (by simp [hp]),
        List.find?_cons_of_neg _ (by simp [hp2])]
      exact ih (fun x hx => h x (List.mem_cons_of_mem _ hx))

theorem exists_max_score (f : SemRecord → ℚ) :
    ∀ (l : List SemRecord), l ≠ [] →
    ∃ c ∈ l, (l.all fun d => decide (f d ≤ f c)) = true := by
  intro l
  induction l with
  | nil => intro h; exact absurd rfl h
  | cons a t ih =>
    intro _
    cases t with
    | nil => exact ⟨a, List.mem_cons_self _ _, by simp⟩
    | cons b u =>
      obtain ⟨c, hcmem, hcall⟩ := ih (by simp)
      by_cases hac : f a ≤ f c
      · refine ⟨c, List.mem_cons_of_mem _ hcmem, ?_⟩
        rw [List.all_cons, hcall]
        simp [hac]
      · refine ⟨a, List.mem_cons_self _ _, ?_⟩
        rw [List.all_cons]
        have hall : ∀ d ∈ b :: u, f d ≤ f a := by
          intro d hd
          have hdc := (List.all_eq_true.mp hcall) d hd
          simp only [decide_eq_true_eq] at hdc
          exact le_trans hdc (le_of_not_le hac)
        rw [List.all_eq_true.mpr (fun d hd => by simp [hall d hd])]
        simp

/-- Once redis errors and the truthiness guards are discharged by
well-formedness, the scan loop is the pure fold over the candidate records. -/
theorem simLoop_eq_pureFold (s : SCState) (now : Nat) (q : String) (thr : ℚ) :
    ∀ (ks : List String) (acc : ℚ × Option CacheEntry),
    s.redis.down = false →
    (∀ k ∈ ks, (aliveStr s.redis now k).isNone = true ∧
      ∃ sr, aliveHash s.redis now k = some sr ∧ sr.message ≠ "" ∧
        sr.response_key ≠ "") →
    simLoop s now q thr ks acc
      = .ok (pureFold s now q thr
          (ks.filterMap (fun k => aliveHash s.redis now k)) acc) := by
  intro ks
  induction ks with
  | nil => intro acc _ _; rfl
  | cons k ks ih =>
    intro acc hd hwf
    obtain ⟨hstr, sr, hhash, hmsg, hrk⟩ := hwf k (List.mem_cons_self _ _)
    have hwf2 := fun k2 hk2 => hwf k2 (List.mem_cons_of_mem _ hk2)
    have hstr2 : aliveStr s.redis now k = none := by
      cases hv : aliveStr s.redis now k
      · rfl
      · rw [hv] at hstr
        exact absurd hstr (by simp)
    have hget_msg : redis_hget s.redis now k "message"
        = .ok (some sr.message) := by
      unfold redis_hget
      rw [if_neg (by simp [hd]), if_neg (by simp [hstr2]), hhash]
      simp
    have hget_rk : redis_hget s.redis now k "response_key"
        = .ok (some sr.response_key) := by
      unfold redis_hget
      rw [if_neg (by simp [hd]), if_neg (by simp [hstr2]), hhash]
      simp
    have hfm : (k :: ks).filterMap (fun k2 => aliveHash s.redis now k2)
        = sr :: ks.filterMap (fun k2 => aliveHash s.redis now k2) := by
      simp [List.filterMap_cons, hhash]
    rw [hfm]
    simp only [simLoop, hget_msg, hget_rk, Bind.bind, Except.bind]
    rw [if_neg hmsg]
    simp only [pureFold]
    by_cases hcond : acc.1 < scoreQ q sr.message ∧ thr ≤ scoreQ q sr.message
    · rw [if_pos hcond, if_pos hcond, if_neg hrk]
      exact ih _ hd hwf2
    · rw [if_neg hcond, if_neg hcond]
      exact ih _ hd hwf2

/-- The running-best fold returns the score and the (already-performed)
dereference of the first-encountered candidate attaining the greatest score
that clears both the threshold and the incoming best; if no candidate does,
the accumulator is returned unchanged. -/
theorem pureFold_spec (s : SCState) (now : Nat) (q : String) (thr : ℚ) :
    ∀ (srs : List SemRecord) (b : ℚ) (macc : Option CacheEntry),
    pureFold s now q thr srs (b, macc)
      = match srs.find? (fun sr =>
            (decide (thr ≤ scoreQ q sr.message)
              && decide (b < scoreQ q sr.message))
            && srs.all (fun sr2 =>
                decide (scoreQ q sr2.message ≤ scoreQ q sr.message))) with
        | some c => (scoreQ q c.message, get_from_cache s now c.response_key)
        | none => (b, macc) := by
  intro srs
  induction srs with
  | nil => intro b macc; rfl
  | cons sr rest ih =>
    intro b macc
    by_cases hA : b < scoreQ q sr.message ∧ thr ≤ scoreQ q sr.message
    · by_cases hM : (rest.all fun d =>
          decide (scoreQ q d.message ≤ scoreQ q sr.message)) = true
      · -- the head qualifies and is already the greatest
        have hPhead : ((decide (thr ≤ scoreQ q sr.message)
              && decide (b < scoreQ q sr.message))
            && (sr :: rest).all (fun sr2 =>
                decide (scoreQ q sr2.message ≤ scoreQ q sr.message))) = true := by
          rw [List.all_cons, hM]
          simp [hA.1, hA.2]
        have hstep : (sr :: rest).find? (fun sr2 =>
            (decide (thr ≤ scoreQ q sr2.message)
              && decide (b < scoreQ q sr2.message))
            && (sr :: rest).all (fun sr3 =>
                decide (scoreQ q sr3.message ≤ scoreQ q sr2.message)))
            = some sr := by
          simp only [List.find?]
          rw [hPhead]
        rw [hstep]
        simp only [pureFold]
        rw [if_pos hA,
          ih (scoreQ q sr.message) (get_from_cache s now sr.response_key)]
        have hnone : rest.find? (fun sr2 =>
            (decide (thr ≤ scoreQ q sr2.message)
              && decide (scoreQ q sr.message < scoreQ q sr2.message))
            && rest.all (fun sr3 =>
                decide (scoreQ q sr3.message ≤ scoreQ q sr2.message)))
            = none := by
          rw [List.find?_eq_none]
          intro x hx
          have hle := (List.all_eq_true.mp hM) x hx
          simp only [decide_eq_true_eq] at hle
          have hnl : ¬ (scoreQ q sr.message < scoreQ q x.message) :=
            not_lt.mpr hle
          simp [hnl]
        rw [hnone]
      · -- a later candidate strictly beats the head
        have hMf : (rest.all fun d =>
            decide (scoreQ q d.message ≤ scoreQ q sr.message)) = false := by
          cases hv : (rest.all fun d =>
              decide (scoreQ q d.message ≤ scoreQ q sr.message))
          · rfl
          · exact absurd hv hM
        have hd0 : ∃ d0 ∈ rest,
            scoreQ q sr.message < scoreQ q d0.message := by
          by_contra hno
          push_neg at hno
          exact hM (List.all_eq_true.mpr (fun d hd => by simp [hno d hd]))
        have hPhead : ((decide (thr ≤ scoreQ q sr.message)
              && decide (b < scoreQ q sr.message))
            && (sr :: rest).all (fun sr2 =>
                decide (scoreQ q sr2.message ≤ scoreQ q sr.message))) = false := by
          rw [List.all_cons, hMf, Bool.and_false, Bool.and_false]
        have hstep : (sr :: rest).find? (fun sr2 =>
            (decide (thr ≤ scoreQ q sr2.message)
              && decide (b < scoreQ q sr2.message))
            && (sr :: rest).all (fun sr3 =>
                decide (scoreQ q sr3.message ≤ scoreQ q sr2.message)))
            = rest.find? (fun sr2 =>
            (decide (thr ≤ scoreQ q sr2.message)
              && decide (b < scoreQ q sr2.message))
            && (sr :: rest).all (fun sr3 =>
                decide (scoreQ q sr3.message ≤ scoreQ q sr2.message))) := by
          simp only [List.find?]
          rw [hPhead]
        rw [hstep]
        simp only [pureFold]
        rw [if_pos hA,
          ih (scoreQ q sr.message) (get_from_cache s now sr.response_key)]
        have hcongr : rest.find? (fun sr2 =>
              (decide (thr ≤ scoreQ q sr2.message)
                && decide (scoreQ q sr.message < scoreQ q sr2.message))
              && rest.all (fun sr3 =>
                  decide (scoreQ q sr3.message ≤ scoreQ q sr2.message)))
            = rest.find? (fun sr2 =>
              (decide (thr ≤ scoreQ q sr2.message)
                && decide (b < scoreQ q sr2.message))
              && (sr :: rest).all (fun sr3 =>
                  decide (scoreQ q sr3.message ≤ scoreQ q sr2.message))) := by
          apply find?_congr_mem
          intro x hx
          by_cases hxall : (rest.all fun d =>
              decide (scoreQ q d.message ≤ scoreQ q x.message)) = true
          · obtain ⟨d0, hd0mem, hd0lt⟩ := hd0
            have hxd0 : scoreQ q d0.message ≤ scoreQ q x.message := by
              have h5 := (List.all_eq_true.mp hxall) d0 hd0mem
              simpa using h5
            have hsx : scoreQ q sr.message < scoreQ q x.message :=
              lt_of_lt_of_le hd0lt hxd0
            have hbx : b < scoreQ q x.message := lt_trans hA.1 hsx
            rw [List.all_cons]
            simp [hxall, hsx, le_of_lt hsx, hbx]
          · have hxf : (rest.all fun d =>
                decide (scoreQ q d.message ≤ scoreQ q x.message)) = false := by
              cases hv : (rest.all fun d =>
                  decide (scoreQ q d.message ≤ scoreQ q x.message))
              · rfl
              · exact absurd hv hxall
            rw [List.all_cons]
            simp [hxf]
        rw [hcongr]
        obtain ⟨d0, hd0mem, hd0lt⟩ := hd0
        obtain ⟨cmax, hcmem, hcall⟩ :=
          exists_max_score (fun x => scoreQ q x.message) rest
            (by intro hemp; rw [hemp] at hd0mem; simp at hd0mem)
        have hcd0 : scoreQ q d0.message ≤ scoreQ q cmax.message := by
          have h5 := (List.all_eq_true.mp hcall) d0 hd0mem
          simpa using h5
        have hsc : scoreQ q sr.message < scoreQ q cmax.message :=
          lt_of_lt_of_le hd0lt hcd0
        cases hfind : rest.find? (fun sr2 =>
            (decide (thr ≤ scoreQ q sr2.message)
              && decide (b < scoreQ q sr2.message))
            && (sr :: rest).all (fun sr3 =>
                decide (scoreQ q sr3.message ≤ scoreQ q sr2.message))) with
        | none =>
          exfalso
          have hfalse := (List.find?_eq_none.mp hfind) cmax hcmem
          apply hfalse
          rw [List.all_cons]
          simp [le_trans hA.2 (le_of_lt hsc), lt_trans hA.1 hsc, hcall,
            le_of_lt hsc]
        | some e => rfl
    · -- the head does not qualify against the incoming best
      have h12 : (decide (thr ≤ scoreQ q sr.message)
          && decide (b < scoreQ q sr.message)) = false := by
        by_cases h1 : thr ≤ scoreQ q sr.message
        · by_cases h2 : b < scoreQ q sr.message
          · exact absurd ⟨h2, h1⟩ hA
          · simp [h2]
        · simp [h1]
      have hPhead : ((decide (thr ≤ scoreQ q sr.message)
            && decide (b < scoreQ q sr.message))
          && (sr :: rest).all (fun sr2 =>
              decide (scoreQ q sr2.message ≤ scoreQ q sr.message))) = false := by
        rw [h12, Bool.false_and]
      have hstep : (sr :: rest).find? (fun sr2 =>
          (decide (thr ≤ scoreQ q sr2.message)
            && decide (b < scoreQ q sr2.message))
          && (sr :: rest).all (fun sr3 =>
              decide (scoreQ q sr3.message ≤ scoreQ q sr2.message)))
          = rest.find? (fun sr2 =>
          (decide (thr ≤ scoreQ q sr2.message)
            && decide (b < scoreQ q sr2.message))
          && (sr :: rest).all (fun sr3 =>
              decide (scoreQ q sr3.message ≤ scoreQ q sr2.message))) := by
        simp only [List.find?]
        rw [hPhead]
      rw [hstep]
      simp only [pureFold]
      rw [if_neg hA, ih b macc]
      have hcongr : rest.find? (fun sr2 =>
            (decide (thr ≤ scoreQ q sr2.message)
              && decide (b < scoreQ q sr2.message))
            && rest.all (fun sr3 =>
                decide (scoreQ q sr3.message ≤ scoreQ q sr2.message)))
          = rest.find? (fun sr2 =>
            (decide (thr ≤ scoreQ q sr2.message)
              && decide (b < scoreQ q sr2.message))
            && (sr :: rest).all (fun sr3 =>
                decide (scoreQ q sr3.message ≤ scoreQ q sr2.message))) := by
        apply find?_congr_mem
        intro x hx
        by_cases hxall : (rest.all fun d =>
            decide (scoreQ q d.message ≤ scoreQ q x.message)) = true
        · by_cases hq : thr ≤ scoreQ q x.message ∧ b < scoreQ q x.message
          · have hsrx : scoreQ q sr.message ≤ scoreQ q x.message := by
              rcases not_and_or.mp hA with h1 | h2
              · exact le_trans (not_lt.mp h1) (le_of_lt hq.2)
              · exact le_of_lt (lt_of_lt_of_le (not_le.mp h2) hq.1)
            rw [List.all_cons]
            simp [hxall, hq.1, hq.2, hsrx]
          · have h13 : (decide (thr ≤ scoreQ q x.message)
                && decide (b < scoreQ q x.message)) = false := by
              by_cases h1 : thr ≤ scoreQ q x.message
              · by_cases h2 : b < scoreQ q x.message
                · exact absurd ⟨h1, h2⟩ hq
                · simp [h2]
              · simp [h1]
            rw [h13, Bool.false_and, Bool.false_and]
        · have hxf : (rest.all fun d =>
              decide (scoreQ q d.message ≤ scoreQ q x.message)) = false := by
            cases hv : (rest.all fun d =>
                decide (scoreQ q d.message ≤ scoreQ q x.message))
            · rfl
            · exact absurd hv hxall
          rw [List.all_cons]
          simp [hxf]
      rw [hcongr]

/-- C6: on a live networked backend with a positive threshold and a
well-formed scanned slice (as every state produced by `cache_response`
satisfies), the semantic lookup returns exactly the dereference of the
first-encountered scanned record whose score clears the threshold and is
greatest among all scanned records; if no record qualifies — or that single
best candidate's dereference misses — the lookup is a miss, with no retry
against any other candidate. -/
theorem C6_semantic_lookup_selects_first_argmax (s : SCState) (now : Nat)
    (q model_id : String) (thr : ℚ)
    (havail : s.cache_available = true)
    (hdown : s.redis.down = false)
    (hthr : 0 < thr)
    (hwf : scanWF s.redis now model_id = true) :
    find_similar_cached_response s now q model_id thr
      = match specSelectBest q thr (semanticScanRecords s.redis now model_id) with
        | some sr => get_from_cache s now sr.response_key
        | none => none := by
  obtain ⟨ks, hK⟩ : ∃ ks, redis_keys s.redis now
      ("semantic_index:" ++ model_id ++ ":*") = .ok ks := by
    unfold redis_keys
    rw [if_neg (by simp [hdown])]
    exact ⟨_, rfl⟩
  have hkeys : semanticScanKeys s.redis now model_id = ks.take 20 := by
    unfold semanticScanKeys
    rw [hK]
  have hrecs : semanticScanRecords s.redis now model_id
      = (ks.take 20).filterMap (fun k => aliveHash s.redis now k) := by
    unfold semanticScanRecords
    rw [hkeys]
  have hwf2 : ∀ k ∈ ks.take 20, (aliveStr s.redis now k).isNone = true ∧
      ∃ sr, aliveHash s.redis now k = some sr ∧ sr.message ≠ "" ∧
        sr.response_key ≠ "" := by
    intro k hk
    unfold scanWF at hwf
    rw [hkeys] at hwf
    have h1 := (List.all_eq_true.mp hwf) k hk
    rw [Bool.and_eq_true] at h1
    refine ⟨h1.1, ?_⟩
    have h2 := h1.2
    cases hh : aliveHash s.redis now k with
    | none => rw [hh] at h2; exact absurd h2 (by simp)
    | some sr =>
      rw [hh] at h2
      simp only [Bool.and_eq_true, Bool.not_eq_eq_eq_not, Bool.not_true,
        beq_eq_false_iff_ne, ne_eq] at h2
      exact ⟨sr, rfl, h2.1, h2.2⟩
  unfold find_similar_cached_response
  rw [if_neg (by simp [havail])]
  have hbind : (do
      let keys ← redis_keys s.redis now ("semantic_index:" ++ model_id ++ ":*")
      simLoop s now q thr (keys.take 20) (0, none)) =
      simLoop s now q thr (ks.take 20) ((0 : ℚ), (none : Option CacheEntry)) := by
    rw [hK]
    rfl
  rw [hbind, simLoop_eq_pureFold s now q thr (ks.take 20) (0, none) hdown hwf2,
    pureFold_spec s now q thr
      ((ks.take 20).filterMap (fun k => aliveHash s.redis now k)) 0 none,
    hrecs]
  unfold specSelectBest
  have hpred : ((ks.take 20).filterMap (fun k => aliveHash s.redis now k)).find?
        (fun sr => (decide (thr ≤ scoreQ q sr.message)
            && decide ((0 : ℚ) < scoreQ q sr.message))
          && ((ks.take 20).filterMap (fun k => aliveHash s.redis now k)).all
            (fun sr2 => decide (scoreQ q sr2.message ≤ scoreQ q sr.message)))
      = ((ks.take 20).filterMap (fun k => aliveHash s.redis now k)).find?
        (fun sr => decide (thr ≤ scoreQ q sr.message)
          && ((ks.take 20).filterMap (fun k => aliveHash s.redis now k)).all
            (fun sr2 => decide (scoreQ q sr2.message ≤ scoreQ q sr.message))) := by
    apply find?_congr_mem
    intro x _
    by_cases h1 : thr ≤ scoreQ q x.message
    · have h0 : (0 : ℚ) < scoreQ q x.message := lt_of_lt_of_le hthr h1
      simp [h1, h0]
    · simp [h1]
  rw [hpred]
  cases hfind : ((ks.take 20).filterMap (fun k => aliveHash s.redis now k)).find?
      (fun sr => decide (thr ≤ scoreQ q sr.message)
        && ((ks.take 20).filterMap (fun k => aliveHash s.redis now k)).all
          (fun sr2 => decide (scoreQ q sr2.message ≤ scoreQ q sr.message))) with
  | none => rfl
  | some c => rfl

theorem C6_witness :
    (⟨true, ⟨[("k2", ⟨"r2", 0, "m", 60, none⟩, 100)],
        [("semantic_index:m:x", ⟨"hello", "k2", 0⟩, none)], false⟩,
      [], ⟨0, 0, 0, 0⟩⟩ : SCState).cache_available = true ∧
    (0 : ℚ) < mkRat 1 2 ∧
    scanWF (⟨[("k2", ⟨"r2", 0, "m", 60, none⟩, 100)],
        [("semantic_index:m:x", ⟨"hello", "k2", 0⟩, none)], false⟩ : RedisStore)
      7 "m" = true ∧
    find_similar_cached_response
        ⟨true, ⟨[("k2", ⟨"r2", 0, "m", 60, none⟩, 100)],
            [("semantic_index:m:x", ⟨"hello", "k2", 0⟩, none)], false⟩,
          [], ⟨0, 0, 0, 0⟩⟩ 7 "hello" "m" (mkRat 1 2)
      = match specSelectBest "hello" (mkRat 1 2)
            (semanticScanRecords
              ⟨[("k2", ⟨"r2", 0, "m", 60, none⟩, 100)],
                [("semantic_index:m:x", ⟨"hello", "k2", 0⟩, none)], false⟩ 7 "m") with
        | some sr => get_from_cache
            ⟨true, ⟨[("k2", ⟨"r2", 0, "m", 60, none⟩, 100)],
                [("semantic_index:m:x", ⟨"hello", "k2", 0⟩, none)], false⟩,
              [], ⟨0, 0, 0, 0⟩⟩ 7 sr.response_key
        | none => none :=
  ⟨rfl, by decide, by decide,
    C6_semantic_lookup_selects_first_argmax
      ⟨true, ⟨[("k2", ⟨"r2", 0, "m", 60, none⟩, 100)],
          [("semantic_index:m:x", ⟨"hello", "k2", 0⟩, none)], false⟩,
        [], ⟨0, 0, 0, 0⟩⟩ 7 "hello" "m" (mkRat 1 2)
      rfl rfl (by decide) (by decide)⟩
